import Mathlib

/-!
# Verification of the brocs-mahjong game engine and room server

A shallow embedding of the Singapore-Mahjong engine
(`src/engine/gameEngine.ts`, whose complete text is the third segment of
`src/unnamed/part_002`) and of the relevant parts of the room server
(`src/party/server.ts`).  TypeScript tile ids are strings `t0`, `t1`, …;
they are opaque identity witnesses, so we model them as `Nat`.  Suit and
bonus values are TypeScript `number`s and take part in arithmetic that can
go below zero (`canAllChi` probes `value - 2`), so they are modelled as
`Int`.  JavaScript `Map`s iterate in insertion order; where the engine
relies on that (the win-checker's tile groups) we model the map as an
association list with JS `Map` semantics (`set` updates in place,
otherwise appends; `delete` removes).
-/

namespace BrocsMahjong

/-- `Suit` from `src/types/game.ts`. -/
inductive Suit
  | bamboo | character | dot
deriving DecidableEq, Repr

/-- `WindDirection` from `src/types/game.ts`. -/
inductive WindDirection
  | east | south | west | north
deriving DecidableEq, Repr

/-- `DragonColor` from `src/types/game.ts`. -/
inductive DragonColor
  | red | green | white
deriving DecidableEq, Repr

/-- `BonusType` from `src/types/game.ts`. -/
inductive BonusType
  | flower | animal
deriving DecidableEq, Repr

/-- `TileDefinition` from `src/types/game.ts`: a discriminated union of
suit, wind, dragon and bonus tiles. -/
inductive TileDefinition
  | suit (suit : Suit) (value : Int)
  | wind (direction : WindDirection)
  | dragon (color : DragonColor)
  | bonus (bonusType : BonusType) (value : Int)
deriving DecidableEq, Repr

/-- `Tile` from `src/types/game.ts` (`id` is the stable identity). -/
structure Tile where
  id : Nat
  definition : TileDefinition
  faceUp : Bool
deriving DecidableEq, Repr

/-- `MeldType` from `src/types/game.ts`. -/
inductive MeldType
  | chi | pong | kong | concealedKong
deriving DecidableEq, Repr

/-- `Meld` from `src/types/game.ts`. -/
structure Meld where
  type : MeldType
  tiles : List Tile
deriving DecidableEq, Repr

/-- `Player` from `src/types/game.ts`. -/
structure Player where
  id : String
  name : String
  avatar : String
  seatWind : WindDirection
  hand : List Tile
  discards : List Tile
  melds : List Meld
  revealedBonuses : List Tile
  isCurrentTurn : Bool
  score : Int
  isReady : Bool
  isConnected : Bool
deriving Repr

/-- `GamePhase` from `src/types/game.ts`. -/
inductive GamePhase
  | waiting | playing | scoring | finished
deriving DecidableEq, Repr

/-- `GameState` from `src/types/game.ts`.  The `players` array always has
exactly four entries, so it is modelled as a function from `Fin 4`. -/
structure GameState where
  phase : GamePhase
  players : Fin 4 → Player
  wall : List Tile
  currentPlayerIndex : Fin 4
  roundWind : WindDirection
  roundNumber : Nat
  turnNumber : Nat
  lastDiscard : Option Tile
  lastDiscardPlayer : Option (Fin 4)
  tilesRemaining : Nat

/-- `generateTileSet` from `src/types/game.ts`: the 144-tile multiset —
108 suit tiles, 16 winds, 12 dragons, 8 bonus tiles. -/
def generateTileSet : List TileDefinition :=
  ([Suit.bamboo, Suit.character, Suit.dot].flatMap fun suit =>
    (List.range 9).flatMap fun v =>
      (List.range 4).map fun _ => TileDefinition.suit suit (v + 1))
  ++ ([WindDirection.east, .south, .west, .north].flatMap fun direction =>
      (List.range 4).map fun _ => TileDefinition.wind direction)
  ++ ([DragonColor.red, .green, .white].flatMap fun color =>
      (List.range 4).map fun _ => TileDefinition.dragon color)
  ++ ((List.range 4).flatMap fun v =>
      [TileDefinition.bonus .flower (v + 1), TileDefinition.bonus .animal (v + 1)])

-- ── Tile comparison helpers (gameEngine.ts) ─────────────────────────────

/-- `tilesMatch` from the engine: equality of definitions field by field.
On our inductive `TileDefinition` this is exactly decidable equality. -/
def tilesMatch (a b : TileDefinition) : Bool := a == b

/-- `tileOrder` from the engine. -/
def tileOrder : TileDefinition → Int
  | .suit s value =>
      let suitIdx : Int := match s with | .character => 0 | .bamboo => 1 | .dot => 2
      suitIdx * 10 + value
  | .wind d => 30 + (match d with | .east => 0 | .south => 1 | .west => 2 | .north => 3)
  | .dragon c => 40 + (match c with | .red => 0 | .green => 1 | .white => 2)
  | .bonus bt value => 50 + (match bt with | .flower => 0 | .animal => 4) + value

/-- `sortHand` from the engine: a stable sort by `tileOrder`. -/
def sortHand (tiles : List Tile) : List Tile :=
  tiles.mergeSort (fun a b => tileOrder a.definition ≤ tileOrder b.definition)

-- ── Win check (gameEngine.ts, "Win check (simplified: 4 sets + 1 pair)") ─

/-- The engine's `tileKey` builds an injective string key from a
definition ("bamboo-3", "wind-east", …); grouping by that string is
grouping by the definition itself, so we use the definition as the key. -/
abbrev TileGroups := List (TileDefinition × Nat)

/-- JS `Map.get` (first — and by construction only — entry with the key). -/
def alGet (m : TileGroups) (k : TileDefinition) : Option Nat :=
  (m.find? (fun p => p.1 == k)).map (·.2)

/-- JS `Map.set`: update in place when the key is present, append otherwise. -/
def alSet (m : TileGroups) (k : TileDefinition) (v : Nat) : TileGroups :=
  if m.any (fun p => p.1 == k) then
    m.map (fun p => if p.1 == k then (k, v) else p)
  else m ++ [(k, v)]

/-- JS `Map.delete`. -/
def alDelete (m : TileGroups) (k : TileDefinition) : TileGroups :=
  m.filter (fun p => !(p.1 == k))

/-- The engine's `copy.set(key, c - n); if (c - n === 0) copy.delete(key)`
idiom (`c` is the current count of `key`). -/
def alDecBy (m : TileGroups) (k : TileDefinition) (n : Nat) : TileGroups :=
  let c := (alGet m k).getD 0
  let m' := alSet m k (c - n)
  if c - n = 0 then alDelete m' k else m'

/-- Sum of all group counts (`Array.from(groups.values()).reduce(+)`). -/
def sumCounts (m : TileGroups) : Nat := (m.map (·.2)).sum

/-- `groupTiles` from the engine: group hand tiles by definition key, in
hand (insertion) order. -/
def groupTiles (tiles : List Tile) : TileGroups :=
  tiles.foldl (fun m t => alSet m t.definition ((alGet m t.definition).getD 0 + 1)) []

/-- `canFormSets` from the engine.  The TS recursion terminates because
every recursive call removes three tiles; `fuel` bounds that depth and is
always called with more fuel than the total count, so the models agree.
The `for` loop body unconditionally returns after the first group with a
positive count, which is the early cut-off described in the spec. -/
def canFormSets : Nat → TileGroups → Bool
  | 0, _ => false
  | fuel + 1, groups =>
    let total := sumCounts groups
    if total = 0 then true
    else if total % 3 ≠ 0 then false
    else
      match groups.find? (fun p => 0 < p.2) with
      | none => false
      | some (key, count) =>
        let tripletOk :=
          if 3 ≤ count then canFormSets fuel (alDecBy groups key 3) else false
        let runOk :=
          match key with
          | .suit s v =>
            if v ≤ 7 then
              let c1 := (alGet groups (.suit s v)).getD 0
              let c2 := (alGet groups (.suit s (v + 1))).getD 0
              let c3 := (alGet groups (.suit s (v + 2))).getD 0
              if 0 < c1 && 0 < c2 && 0 < c3 then
                canFormSets fuel
                  (alDecBy (alDecBy (alDecBy groups (.suit s v) 1) (.suit s (v + 1)) 1)
                    (.suit s (v + 2)) 1)
              else false
            else false
          | _ => false
        tripletOk || runOk

/-- `canFormSetsAndPair` from the engine: try every group with count ≥ 2
as the pair, in map order. -/
def canFormSetsAndPair (fuel : Nat) (groups : TileGroups) : Bool :=
  let total := sumCounts groups
  if total = 0 then true
  else if total = 2 then groups.any (fun p => 2 ≤ p.2)
  else groups.any (fun p => 2 ≤ p.2 && canFormSets fuel (alDecBy groups p.1 2))

/-- `checkWin` from the engine: the hand must have `14 − 3·meldCount`
tiles (computed in `number` arithmetic, hence over `Int`) and its groups
must decompose into sets plus one pair. -/
def checkWin (hand : List Tile) (melds : List Meld) : Bool :=
  let expectedHand : Int := 14 - 3 * melds.length
  if (hand.length : Int) ≠ expectedHand then false
  else canFormSetsAndPair (hand.length + 1) (groupTiles hand)

/-- `checkWinWithTile` from the engine: test the hand with the tile
appended. -/
def checkWinWithTile (hand : List Tile) (melds : List Meld) (tile : Tile) : Bool :=
  checkWin (hand ++ [tile]) melds

-- ── Core game operations (gameEngine.ts) ────────────────────────────────

def isBonusDef : TileDefinition → Bool
  | .bonus _ _ => true
  | _ => false

/-- The engine reads `meld.tiles[0].definition`; melds built by the game
always have tiles, and we skip the meld when they do not. -/
def meldHeadDef (m : Meld) : Option TileDefinition :=
  (m.tiles.head?).map (·.definition)

/-- The bonus-replacement chain shared by `drawTile`, `doKong` and
`doSelfKong`: while the current tile is a bonus, reveal it and pop a
replacement from the tail of the wall.  Returns the final tile, the
remaining wall and the revealed bonuses (the final tile is among the
revealed bonuses exactly when the wall ran dry on a bonus). -/
def bonusChain (current : Tile) (wall : List Tile) (revealed : List Tile) :
    Tile × List Tile × List Tile :=
  if isBonusDef current.definition then
    if h : wall = [] then (current, wall, revealed ++ [current])
    else
      bonusChain { wall.getLast h with faceUp := true } wall.dropLast
        (revealed ++ [current])
  else (current, wall, revealed)
termination_by wall.length
decreasing_by
  have := List.length_pos.mpr h
  simp only [List.length_dropLast]
  omega

/-- `drawTile` from the engine: draw from the head of the wall, chaining
bonus replacements from the tail. -/
def drawTile (state : GameState) (playerIndex : Fin 4) : GameState :=
  match state.wall with
  | [] => { state with phase := .finished }
  | drawn :: wall =>
    let r := bonusChain { drawn with faceUp := true } wall []
    let currentTile := r.1
    let wall' := r.2.1
    let revealedBonuses := r.2.2
    let finalTileIsBonus := isBonusDef currentTile.definition
    let players := fun i =>
      if i = playerIndex then
        let p := state.players i
        { p with
          hand := if finalTileIsBonus then p.hand else p.hand ++ [currentTile],
          revealedBonuses := p.revealedBonuses ++ revealedBonuses }
      else state.players i
    { state with
      wall := wall'
      players := players
      tilesRemaining := wall'.length
      phase := if wall'.length = 0 && finalTileIsBonus then .finished else state.phase }

/-- `discardTile` from the engine: `findIndex` + `splice` is removing the
first tile with the given id; the state is unchanged when the id is not in
the hand. -/
def discardTile (state : GameState) (playerIndex : Fin 4) (tileId : Nat) : GameState :=
  let player := state.players playerIndex
  match player.hand.find? (fun t => t.id == tileId) with
  | none => state
  | some found =>
    let discarded := { found with faceUp := true }
    let newHand := player.hand.eraseP (fun t => t.id == tileId)
    let players := fun i =>
      if i = playerIndex then
        { player with
          hand := sortHand newHand
          discards := player.discards ++ [discarded]
          isCurrentTurn := false }
      else { state.players i with isCurrentTurn := false }
    { state with
      players := players
      lastDiscard := some discarded
      lastDiscardPlayer := some playerIndex
      turnNumber := state.turnNumber + 1 }

/-- `advanceTurn` from the engine (`Fin 4` addition is `(· + 1) % 4`). -/
def advanceTurn (state : GameState) : GameState :=
  let next := state.currentPlayerIndex + 1
  { state with
    currentPlayerIndex := next
    players := fun i => { state.players i with isCurrentTurn := i = next } }

-- ── Claim checks (gameEngine.ts) ────────────────────────────────────────

/-- `canPong`: the first two hand tiles matching the discard, if any. -/
def canPong (hand : List Tile) (discardDef : TileDefinition) : Option (List Tile) :=
  let matching := hand.filter (fun t => tilesMatch t.definition discardDef)
  if 2 ≤ matching.length then some (matching.take 2) else none

/-- `canKong`: the first three hand tiles matching the discard, if any. -/
def canKong (hand : List Tile) (discardDef : TileDefinition) : Option (List Tile) :=
  let matching := hand.filter (fun t => tilesMatch t.definition discardDef)
  if 3 ≤ matching.length then some (matching.take 3) else none

def suitValue? (t : Tile) (v : Int) : Bool :=
  match t.definition with | .suit _ w => w == v | _ => false

/-- The loop body of `canAllChi`: skip an out-of-range pair, otherwise
look for two distinct tiles with the required values and record the
combination. -/
def chiStep (suitTiles : List Tile) (results : List (List Tile)) (v : Int × Int) :
    List (List Tile) :=
  if v.1 < 1 ∨ v.1 > 9 ∨ v.2 < 1 ∨ v.2 > 9 then results
  else
    let t1 := suitTiles.find? (fun t => suitValue? t v.1)
    let t2 := suitTiles.find? (fun t =>
      suitValue? t v.2 && !(t1.map Tile.id == some t.id))
    match t1, t2 with
    | some a, some b => results ++ [[a, b]]
    | _, _ => results

/-- `canAllChi` from the engine: all valid chi completions, in the order
low-pair, middle-pair, high-pair.  Chi is only available to the player
after the discarder and only on suit discards. -/
def canAllChi (hand : List Tile) (discardDef : TileDefinition)
    (claimerIndex discarderIndex : Fin 4) : List (List Tile) :=
  if discarderIndex + 1 ≠ claimerIndex then []
  else
    match discardDef with
    | .suit suit val =>
      let suitTiles := hand.filter (fun t =>
        match t.definition with | .suit s _ => s == suit | _ => false)
      let sequences : List (Int × Int) :=
        [(val - 2, val - 1), (val - 1, val + 1), (val + 1, val + 2)]
      sequences.foldl (chiStep suitTiles) []
    | _ => []

/-- `canChi` from the engine: the first chi completion. -/
def canChi (hand : List Tile) (discardDef : TileDefinition)
    (claimerIndex discarderIndex : Fin 4) : Option (List Tile) :=
  (canAllChi hand discardDef claimerIndex discarderIndex).head?

def suitValOrZero (t : Tile) : Int :=
  match t.definition with | .suit _ v => v | _ => 0

/-- `doChi` from the engine. -/
def doChi (state : GameState) (claimerIndex : Fin 4) (chiTiles : List Tile) : GameState :=
  match state.lastDiscard with
  | none => state
  | some discard =>
    let chiIds := chiTiles.map Tile.id
    let claimer := state.players claimerIndex
    let newHand := claimer.hand.filter (fun t => !chiIds.contains t.id)
    let discarderIdx := state.lastDiscardPlayer
    let meldTiles := (chiTiles ++ [discard]).mergeSort
      (fun a b => suitValOrZero a ≤ suitValOrZero b)
    let meld : Meld := { type := .chi, tiles := meldTiles }
    let players := fun i =>
      if i = claimerIndex then
        { claimer with
          hand := sortHand newHand
          melds := claimer.melds ++ [meld]
          isCurrentTurn := true }
      else if some i = discarderIdx then
        { state.players i with
          discards := (state.players i).discards.filter (fun t => !(t.id == discard.id))
          isCurrentTurn := false }
      else { state.players i with isCurrentTurn := false }
    { state with
      players := players
      currentPlayerIndex := claimerIndex
      lastDiscard := none
      lastDiscardPlayer := none }

/-- `doPong` from the engine. -/
def doPong (state : GameState) (claimerIndex : Fin 4) : GameState :=
  match state.lastDiscard with
  | none => state
  | some discard =>
    let claimer := state.players claimerIndex
    match canPong claimer.hand discard.definition with
    | none => state
    | some pongTiles =>
      let pongIds := pongTiles.map Tile.id
      let newHand := claimer.hand.filter (fun t => !pongIds.contains t.id)
      let discarderIdx := state.lastDiscardPlayer
      let meld : Meld := { type := .pong, tiles := pongTiles ++ [discard] }
      let players := fun i =>
        if i = claimerIndex then
          { claimer with
            hand := sortHand newHand
            melds := claimer.melds ++ [meld]
            isCurrentTurn := true }
        else if some i = discarderIdx then
          { state.players i with
            discards := (state.players i).discards.filter (fun t => !(t.id == discard.id))
            isCurrentTurn := false }
        else { state.players i with isCurrentTurn := false }
      { state with
        players := players
        currentPlayerIndex := claimerIndex
        lastDiscard := none
        lastDiscardPlayer := none }

/-- `doKong` from the engine: like `doPong` with three matching tiles,
plus a replacement draw from the tail of the wall (with bonus chain). -/
def doKong (state : GameState) (claimerIndex : Fin 4) : GameState :=
  match state.lastDiscard with
  | none => state
  | some discard =>
    let claimer := state.players claimerIndex
    match canKong claimer.hand discard.definition with
    | none => state
    | some kongTiles =>
      let kongIds := kongTiles.map Tile.id
      let newHand := claimer.hand.filter (fun t => !kongIds.contains t.id)
      let discarderIdx := state.lastDiscardPlayer
      let meld : Meld := { type := .kong, tiles := kongTiles ++ [discard] }
      let players := fun i =>
        if i = claimerIndex then
          { claimer with
            hand := sortHand newHand
            melds := claimer.melds ++ [meld]
            isCurrentTurn := true }
        else if some i = discarderIdx then
          { state.players i with
            discards := (state.players i).discards.filter (fun t => !(t.id == discard.id))
            isCurrentTurn := false }
        else { state.players i with isCurrentTurn := false }
      match state.wall.getLast? with
      | some replacement =>
        let r := bonusChain { replacement with faceUp := true } state.wall.dropLast []
        let finalIsBonus := isBonusDef r.1.definition
        let updatedPlayers := fun i =>
          if i = claimerIndex then
            { players i with
              hand := if finalIsBonus then (players i).hand
                      else sortHand ((players i).hand ++ [r.1])
              revealedBonuses := (players i).revealedBonuses ++ r.2.2 }
          else players i
        { state with
          wall := r.2.1
          players := updatedPlayers
          currentPlayerIndex := claimerIndex
          lastDiscard := none
          lastDiscardPlayer := none
          tilesRemaining := r.2.1.length
          phase := if r.2.1.length = 0 && finalIsBonus then .finished else state.phase }
      | none =>
        { state with
          players := players
          currentPlayerIndex := claimerIndex
          lastDiscard := none
          lastDiscardPlayer := none
          tilesRemaining := state.wall.length }

-- ── Self kong (gameEngine.ts) ───────────────────────────────────────────

/-- Result of `canSelfKong`. -/
inductive SelfKongInfo
  | promote (meldIndex : Nat) (tile : Tile)
  | concealed (tiles : List Tile)
deriving DecidableEq, Repr

/-- The promote scan of `canSelfKong`: the first pong meld a hand tile
matches, with that hand tile. -/
def findPromoteAux (hand : List Tile) : Nat → List Meld → Option (Nat × Tile)
  | _, [] => none
  | mi, m :: rest =>
    if m.type == .pong then
      match meldHeadDef m with
      | some d0 =>
        match hand.find? (fun t => tilesMatch t.definition d0) with
        | some t => some (mi, t)
        | none => findPromoteAux hand (mi + 1) rest
      | none => findPromoteAux hand (mi + 1) rest
    else findPromoteAux hand (mi + 1) rest

/-- The concealed scan of `canSelfKong`: the engine groups the hand by
definition key into a `Map` (first-occurrence order) and returns the first
group with exactly four tiles; scanning hand tiles for the first whose
whole-hand group has length four yields the same group. -/
def findConcealed (hand : List Tile) : Option (List Tile) :=
  (hand.find? (fun t =>
    (hand.filter (fun u => u.definition == t.definition)).length = 4)).map
    (fun t => hand.filter (fun u => u.definition == t.definition))

/-- `canSelfKong` from the engine: promote preferred over concealed. -/
def canSelfKong (player : Player) : Option SelfKongInfo :=
  match findPromoteAux player.hand 0 player.melds with
  | some (mi, t) => some (.promote mi t)
  | none => (findConcealed player.hand).map .concealed

/-- The promote branch's
`melds.map((m, mi) => mi === meldIndex ? kong-upgrade : m)`:
replace the meld at `meldIndex` by its kong upgrade (identity when the
index is out of range, exactly as the TS `map` is). -/
def upgradeMeldAt : List Meld → Nat → Tile → List Meld
  | [], _, _ => []
  | m :: rest, 0, tile => { type := MeldType.kong, tiles := m.tiles ++ [tile] } :: rest
  | m :: rest, mi + 1, tile => m :: upgradeMeldAt rest mi tile

/-- The replacement-draw tail of `doSelfKong` (shared by the promote and
concealed cases): pop from the wall tail, chain bonuses, install the new
hand and melds. -/
def doSelfKongFinish (state : GameState) (playerIndex : Fin 4)
    (newHand : List Tile) (newMelds : List Meld) : GameState :=
  let player := state.players playerIndex
  match state.wall.getLast? with
  | some first =>
    let r := bonusChain { first with faceUp := true } state.wall.dropLast []
    let finalIsBonus := isBonusDef r.1.definition
    let newHand2 := if finalIsBonus then newHand else sortHand (newHand ++ [r.1])
    let players := fun i =>
      if i = playerIndex then
        { player with
          hand := newHand2
          melds := newMelds
          revealedBonuses := player.revealedBonuses ++ r.2.2 }
      else state.players i
    { state with
      wall := r.2.1
      players := players
      tilesRemaining := r.2.1.length
      phase := if r.2.1.length = 0 && finalIsBonus then .finished else state.phase }
  | none =>
    let players := fun i =>
      if i = playerIndex then { player with hand := sortHand newHand, melds := newMelds }
      else state.players i
    { state with players := players, tilesRemaining := state.wall.length }

/-- `doSelfKong` from the engine. -/
def doSelfKong (state : GameState) (playerIndex : Fin 4) : GameState :=
  let player := state.players playerIndex
  match canSelfKong player with
  | none => state
  | some kongInfo =>
    let handMelds : List Tile × List Meld :=
      match kongInfo with
      | .promote mi tile =>
        (player.hand.filter (fun t => !(t.id == tile.id)),
         upgradeMeldAt player.melds mi tile)
      | .concealed tiles =>
        let kongIds := tiles.map Tile.id
        (player.hand.filter (fun t => !kongIds.contains t.id),
         player.melds ++ [{ type := MeldType.concealedKong, tiles := tiles }])
    doSelfKongFinish state playerIndex handMelds.1 handMelds.2

-- ── Singapore Tai Scoring (gameEngine.ts, `calculateTai`) ───────────────

/-- One `{ name, tai }` entry of the breakdown. -/
structure TaiEntry where
  name : String
  tai : Nat
deriving DecidableEq, Repr

/-- `TaiResult` from the engine. -/
structure TaiResult where
  tai : Nat
  breakdown : List TaiEntry
  basePoints : Nat
deriving DecidableEq, Repr

def isFlowerTile (t : Tile) : Bool :=
  match t.definition with | .bonus .flower _ => true | _ => false

def isAnimalTile (t : Tile) : Bool :=
  match t.definition with | .bonus .animal _ => true | _ => false

def dragonColorName : DragonColor → String
  | .red => "red" | .green => "green" | .white => "white"

def windDirectionName : WindDirection → String
  | .east => "east" | .south => "south" | .west => "west" | .north => "north"

/-- `calculateTai` from the engine (the complete version, third segment of
`src/unnamed/part_002`, including the limit hands and the `[1, 10]` clamp).
The breakdown entries are appended in the engine's `push` order. -/
def calculateTai (player : Player) (isSelfDraw : Bool) (roundWind : WindDirection) :
    TaiResult :=
  let hand := player.hand
  let melds := player.melds
  let bonuses := player.revealedBonuses
  let flowers := bonuses.filter isFlowerTile
  let animals := bonuses.filter isAnimalTile
  let flowerEntries : List TaiEntry :=
    if flowers.length > 0 then
      [⟨"Flowers (" ++ toString flowers.length ++ ")", flowers.length⟩] else []
  let animalEntries : List TaiEntry :=
    if animals.length > 0 then
      [⟨"Animals (" ++ toString animals.length ++ ")", animals.length⟩] else []
  let allFlowers : List TaiEntry := if flowers.length = 4 then [⟨"All Flowers", 1⟩] else []
  let allAnimals : List TaiEntry := if animals.length = 4 then [⟨"All Animals", 1⟩] else []
  let animalValues : List Int :=
    animals.map (fun t => match t.definition with | .bonus _ v => v | _ => 0)
  let catMouse : List TaiEntry :=
    if animalValues.contains 1 && animalValues.contains 2 then [⟨"Cat & Mouse", 1⟩] else []
  let roosterCentipede : List TaiEntry :=
    if animalValues.contains 3 && animalValues.contains 4 then
      [⟨"Rooster & Centipede", 1⟩] else []
  let allDefs : List TileDefinition :=
    (hand ++ melds.flatMap Meld.tiles).map (·.definition)
  let selfDraw : List TaiEntry := if isSelfDraw then [⟨"Self-drawn", 1⟩] else []
  let noBonus : List TaiEntry := if bonuses.length = 0 then [⟨"No Bonus Tiles", 1⟩] else []
  let hasOpenMelds := melds.any (fun m => !(m.type == .concealedKong))
  let concealed : List TaiEntry := if !hasOpenMelds then [⟨"Concealed Hand", 1⟩] else []
  let allSetsArePongs :=
    melds.all (fun m => m.type == .pong || m.type == .kong || m.type == .concealedKong)
  let allPongs : List TaiEntry :=
    if allSetsArePongs && melds.length > 0 then [⟨"All Pongs", 2⟩] else []
  let dragonPongEntries : List TaiEntry :=
    melds.filterMap (fun m =>
      if m.type == .pong || m.type == .kong then
        match meldHeadDef m with
        | some (.dragon c) => some ⟨"Dragon " ++ dragonColorName c ++ " Pong", 1⟩
        | _ => none
      else none)
  let windEntries : List TaiEntry :=
    melds.flatMap (fun m =>
      if m.type == .pong || m.type == .kong then
        match meldHeadDef m with
        | some (.wind d) =>
          (if d == player.seatWind then
            [(⟨"Seat Wind (" ++ windDirectionName d ++ ")", 1⟩ : TaiEntry)] else [])
          ++ (if d == roundWind then
            [(⟨"Round Wind (" ++ windDirectionName d ++ ")", 1⟩ : TaiEntry)] else [])
        | _ => []
      else [])
  let suitTypes : List Suit :=
    (allDefs.filterMap (fun d => match d with | .suit s _ => some s | _ => none)).dedup
  let hasHonors := allDefs.any (fun d => match d with | .wind _ | .dragon _ => true | _ => false)
  let flushEntries : List TaiEntry :=
    if suitTypes.length = 1 && !hasHonors then [⟨"Full Flush", 4⟩]
    else if suitTypes.length = 1 && hasHonors then [⟨"Half Flush", 2⟩]
    else []
  let allHonors := allDefs.all (fun d => match d with | .wind _ | .dragon _ => true | _ => false)
  let allHonorsEntries : List TaiEntry := if allHonors then [⟨"All Honors", 10⟩] else []
  let allTerminals :=
    allDefs.all (fun d => match d with | .suit _ v => v == 1 || v == 9 | _ => false)
  let allTerminalsEntries : List TaiEntry := if allTerminals then [⟨"All Terminals", 10⟩] else []
  let dragonPongs := melds.filter (fun m =>
    (m.type == .pong || m.type == .kong || m.type == .concealedKong)
    && (match meldHeadDef m with | some (.dragon _) => true | _ => false))
  let handDragonColors : List DragonColor :=
    hand.filterMap (fun t => match t.definition with | .dragon c => some c | _ => none)
  let dragonPairInHand :=
    handDragonColors.dedup.any (fun c => 2 ≤ handDragonColors.count c)
  let smallThreeDragons : List TaiEntry :=
    if dragonPongs.length = 2 && dragonPairInHand then [⟨"Small Three Dragons", 4⟩] else []
  let bigThreeDragons : List TaiEntry :=
    if dragonPongs.length = 3 then [⟨"Big Three Dragons", 8⟩] else []
  let windPongs := melds.filter (fun m =>
    (m.type == .pong || m.type == .kong || m.type == .concealedKong)
    && (match meldHeadDef m with | some (.wind _) => true | _ => false))
  let handWindDirs : List WindDirection :=
    hand.filterMap (fun t => match t.definition with | .wind d => some d | _ => none)
  let windPairInHand := handWindDirs.dedup.any (fun d => 2 ≤ handWindDirs.count d)
  let smallFourWinds : List TaiEntry :=
    if windPongs.length = 3 && windPairInHand then [⟨"Small Four Winds", 8⟩] else []
  let bigFourWinds : List TaiEntry :=
    if windPongs.length = 4 then [⟨"Big Four Winds", 10⟩] else []
  let breakdown : List TaiEntry :=
    flowerEntries ++ animalEntries ++ allFlowers ++ allAnimals ++ catMouse
    ++ roosterCentipede ++ selfDraw ++ noBonus ++ concealed ++ allPongs
    ++ dragonPongEntries ++ windEntries ++ flushEntries ++ allHonorsEntries
    ++ allTerminalsEntries ++ smallThreeDragons ++ bigThreeDragons
    ++ smallFourWinds ++ bigFourWinds
  let tai := (breakdown.map TaiEntry.tai).sum
  let finalTai := min (max tai 1) 10
  { tai := finalTai, breakdown := breakdown, basePoints := 2 ^ finalTai }

-- ── Payment calculation (gameEngine.ts, `calculatePayments`) ────────────

/-- One `{ playerIndex, amount }` entry. -/
structure PaymentEntry where
  playerIndex : Nat
  amount : Int
deriving DecidableEq, Repr

/-- `PaymentResult` from the engine. -/
structure PaymentResult where
  payments : List PaymentEntry
  winnerReceives : Int
deriving DecidableEq, Repr

/-- `calculatePayments` from the engine: every non-winner pays
`basePoints` (the shooter pays double); the winner receives the total. -/
def calculatePayments (winnerIndex : Nat) (shooterIndex : Option Nat)
    (basePoints : Int) : PaymentResult :=
  let step := fun (acc : List PaymentEntry × Int) (i : Nat) =>
    if i = winnerIndex then acc
    else
      let amount : Int := if some i = shooterIndex then basePoints * 2 else basePoints
      (acc.1 ++ [⟨i, -amount⟩], acc.2 + amount)
  let r := (List.range 4).foldl step ([], 0)
  { payments := r.1 ++ [⟨winnerIndex, r.2⟩], winnerReceives := r.2 }

-- ── Fresh deal (server.ts, `createGameState`) ───────────────────────────

/-- Tile number `i` of a deal: id `i` (TS `t<i>`), definition `defs[i]`. -/
def mkDealTile (defs : List TileDefinition) (i : Nat) (faceUp : Bool) : Tile :=
  { id := i, definition := defs.getD i (.wind .east), faceUp := faceUp }

/-- The 13 initial hand tiles of player `p` (indices `13p … 13p+12`). -/
def initialHand (defs : List TileDefinition) (p : Nat) : List Tile :=
  (List.range 13).map (fun t => mkDealTile defs (13 * p + t) true)

/-- The wall after the deal: indices `53 …` (the dealer took tile 52). -/
def initialWall (defs : List TileDefinition) : List Tile :=
  (List.range (defs.length - 53)).map (fun k => mkDealTile defs (53 + k) false)

/-- One pass of the bonus-replacement scan of `createGameState`
(`for (let t = hands[p].length - 1; t >= 0; t--) …`): examine position
`t - 1`, splice out a bonus, pop a replacement from the wall tail.  The
argument is one past the position examined next. -/
def bonusScan : Nat → List Tile → List Tile → List Tile → Bool →
    List Tile × List Tile × List Tile × Bool
  | 0, hand, bonuses, wall, changed => (hand, bonuses, wall, changed)
  | t + 1, hand, bonuses, wall, changed =>
    match hand.get? t with
    | none => bonusScan t hand bonuses wall changed
    | some tile =>
      if isBonusDef tile.definition then
        let hand1 := hand.eraseIdx t
        let bonuses1 := bonuses ++ [tile]
        match wall.getLast? with
        | some repl =>
          bonusScan t (hand1 ++ [{ repl with faceUp := true }]) bonuses1 wall.dropLast true
        | none => bonusScan t hand1 bonuses1 wall changed
      else bonusScan t hand bonuses wall changed

/-- The `while (changed)` loop of the bonus-replacement step.  Every pass
that sets `changed` pops at least one wall tile, so the loop terminates;
`fuel` (instantiated as `wall.length + 1`) over-approximates the number of
passes. -/
def bonusReplaceLoop : Nat → List Tile → List Tile → List Tile →
    List Tile × List Tile × List Tile
  | 0, hand, bonuses, wall => (hand, bonuses, wall)
  | fuel + 1, hand, bonuses, wall =>
    let r := bonusScan hand.length hand bonuses wall false
    if r.2.2.2 then bonusReplaceLoop fuel r.1 r.2.1 r.2.2.1
    else (r.1, r.2.1, r.2.2.1)

def seatWindOf (i : Fin 4) : WindDirection :=
  match i.val with
  | 0 => .east
  | 1 => .south
  | 2 => .west
  | _ => .north

/-- `createGameState` from `server.ts`, applied to the shuffled
definition list `defs`: deal 13 tiles to each player and a 14th to the
dealer (player 0), build the wall from the rest, then run the
bonus-replacement loop player by player (threading the wall) and sort
each hand.  Lobby names and avatars are irrelevant to the game state
invariants and are modelled as fixed strings. -/
def createGameState (defs : List TileDefinition) : GameState :=
  let h0 := initialHand defs 0 ++ [mkDealTile defs 52 true]
  let h1 := initialHand defs 1
  let h2 := initialHand defs 2
  let h3 := initialHand defs 3
  let wall0 := initialWall defs
  let r0 := bonusReplaceLoop (wall0.length + 1) h0 [] wall0
  let r1 := bonusReplaceLoop (r0.2.2.length + 1) h1 [] r0.2.2
  let r2 := bonusReplaceLoop (r1.2.2.length + 1) h2 [] r1.2.2
  let r3 := bonusReplaceLoop (r2.2.2.length + 1) h3 [] r2.2.2
  let hands : Fin 4 → List Tile := fun i =>
    match i.val with
    | 0 => r0.1
    | 1 => r1.1
    | 2 => r2.1
    | _ => r3.1
  let bonuses : Fin 4 → List Tile := fun i =>
    match i.val with
    | 0 => r0.2.1
    | 1 => r1.2.1
    | 2 => r2.2.1
    | _ => r3.2.1
  let wall := r3.2.2
  { phase := .playing
    players := fun i =>
      { id := "player-" ++ toString i.val
        name := "player"
        avatar := "🥦"
        seatWind := seatWindOf i
        hand := sortHand (hands i)
        discards := []
        melds := []
        revealedBonuses := bonuses i
        isCurrentTurn := i = 0
        score := 0
        isReady := true
        isConnected := true }
    wall := wall
    currentPlayerIndex := 0
    roundWind := .east
    roundNumber := 1
    turnNumber := 1
    lastDiscard := none
    lastDiscardPlayer := none
    tilesRemaining := wall.length }

-- ── Server-side models (party/server.ts) ────────────────────────────────

/-- `ActionType` from `src/types/game.ts`. -/
inductive ActionType
  | draw | discard | chi | pong | kong | win | pass
deriving DecidableEq, Repr

/-- A recorded claim response (`claimResponses` map entry); `none` in the
response map stands for an explicit or automatic pass (`null` in TS). -/
structure ClaimResponse where
  action : ActionType
  chiIndex : Option Nat
deriving DecidableEq, Repr

/-- Modelled from the spec: `canWinWithSufficientTai` is imported by
`server.ts` from the game engine but its definition is missing from the
sources (only callers exist).  Per the spec's minimum-tai rule — "evaluate
self-draw win (accept only if `tai ≥ 1`)", "Each candidate is validated
against the minimum-tai rule" — a win is allowed iff the hand together
with the melds completes and the total tai meets the minimum of 1. -/
def canWinWithSufficientTai (player : Player) (isSelfDraw : Bool)
    (roundWind : WindDirection) : Bool :=
  checkWin player.hand player.melds
    && decide (1 ≤ (calculateTai player isSelfDraw roundWind).tai)

/-- The win validation of `resolveClaimWindow`: build `testPlayer` with
the discard appended to the hand and check `canWinWithSufficientTai`. -/
def winClaimAllowed (gs : GameState) (discard : Tile) (i : Fin 4) : Bool :=
  canWinWithSufficientTai
    { gs.players i with hand := (gs.players i).hand ++ [discard] } false gs.roundWind

/-- The predicate applied to each index by the win loop of
`resolveClaimWindow`: a non-discarder whose response is `win` and who
passes validation. -/
def winCandidate (gs : GameState) (discard : Tile) (discarderIdx : Fin 4)
    (responses : Fin 4 → Option ClaimResponse) (i : Fin 4) : Bool :=
  !(i == discarderIdx)
  && (match responses i with | some r => r.action == .win | none => false)
  && winClaimAllowed gs discard i

/-- The state assignment the win branch of `resolveClaimWindow` performs
before calling `endRound`: the discard joins the winner's hand, leaves
the discarder's pile, and `lastDiscard`/`lastDiscardPlayer` are cleared. -/
def executeWinClaim (gs : GameState) (discard : Tile) (discarderIdx winner : Fin 4) :
    GameState :=
  let players := fun i =>
    if i = winner then { gs.players i with hand := (gs.players i).hand ++ [discard] }
    else if i = discarderIdx then
      { gs.players i with
        discards := (gs.players i).discards.filter (fun t => !(t.id == discard.id)) }
    else gs.players i
  { gs with players := players, lastDiscard := none, lastDiscardPlayer := none }

/-- `resolveClaimWindow` detects that `doKong` took effect by reference
inequality (`result !== gs`); `doKong` returns its input unchanged exactly
when there is no discard or the claimer lacks three matching tiles. -/
def kongChanges (gs : GameState) (i : Fin 4) : Bool :=
  match gs.lastDiscard with
  | some d => (canKong (gs.players i).hand d.definition).isSome
  | none => false

/-- Same for `doPong`. -/
def pongChanges (gs : GameState) (i : Fin 4) : Bool :=
  match gs.lastDiscard with
  | some d => (canPong (gs.players i).hand d.definition).isSome
  | none => false

/-- The kong-loop predicate of `resolveClaimWindow`. -/
def kongCandidate (gs : GameState) (discarderIdx : Fin 4)
    (responses : Fin 4 → Option ClaimResponse) (i : Fin 4) : Bool :=
  !(i == discarderIdx)
  && (match responses i with | some r => r.action == .kong | none => false)
  && kongChanges gs i

/-- The pong-loop predicate of `resolveClaimWindow`. -/
def pongCandidate (gs : GameState) (discarderIdx : Fin 4)
    (responses : Fin 4 → Option ClaimResponse) (i : Fin 4) : Bool :=
  !(i == discarderIdx)
  && (match responses i with | some r => r.action == .pong | none => false)
  && pongChanges gs i

/-- What a completed claim window resolved to.  `winRound` carries the
state that `resolveClaimWindow` assigns before calling `endRound`. -/
inductive ClaimOutcome
  | winRound (winner : Fin 4) (state : GameState)
  | kongTaken (claimer : Fin 4)
  | pongTaken (claimer : Fin 4)
  | chiTaken (claimer : Fin 4)
  | allPass
  | noWindow

/-- The constructor kind of a `ClaimOutcome`, for decidable comparison. -/
inductive ClaimOutcomeKind
  | winRound | kongTaken | pongTaken | chiTaken | allPass | noWindow
deriving DecidableEq, Repr

def ClaimOutcome.kind : ClaimOutcome → ClaimOutcomeKind
  | .winRound _ _ => .winRound
  | .kongTaken _ => .kongTaken
  | .pongTaken _ => .pongTaken
  | .chiTaken _ => .chiTaken
  | .allPass => .allPass
  | .noWindow => .noWindow

def ClaimOutcome.winWinner : ClaimOutcome → Option (Fin 4)
  | .winRound w _ => some w
  | _ => none

/-- `resolveClaimWindow` from `server.ts` as a pure function from the
game state and the collected responses to the resolved outcome.
Priorities: win (scanning players 0,1,2,3, skipping the discarder,
skipping invalid candidates), then kong, then pong, then chi (next player
only), else all-pass (`advanceToNextPlayer`).  Messaging side effects
(`error`, broadcasts) are not modelled. -/
def resolveClaimOutcome (gs : GameState) (responses : Fin 4 → Option ClaimResponse) :
    ClaimOutcome :=
  match gs.lastDiscard, gs.lastDiscardPlayer with
  | some discard, some discarderIdx =>
    match (List.finRange 4).find? (winCandidate gs discard discarderIdx responses) with
    | some i => .winRound i (executeWinClaim gs discard discarderIdx i)
    | none =>
      match (List.finRange 4).find? (kongCandidate gs discarderIdx responses) with
      | some i => .kongTaken i
      | none =>
        match (List.finRange 4).find? (pongCandidate gs discarderIdx responses) with
        | some i => .pongTaken i
        | none =>
          let chiPlayer := discarderIdx + 1
          if chiPlayer ≠ discarderIdx then
            match responses chiPlayer with
            | some r =>
              if r.action == .chi then
                let allOptions := canAllChi (gs.players chiPlayer).hand
                  discard.definition chiPlayer discarderIdx
                let chosen :=
                  (allOptions.get? (r.chiIndex.getD 0)).orElse (fun _ => allOptions.head?)
                match chosen with
                | some _ => .chiTaken chiPlayer
                | none => .allPass
              else .allPass
            | none => .allPass
          else .allPass
  | _, _ => .noWindow

/-- The scoring part of `endRound` in `server.ts` when the round has a
winner: tai for the winner, shooter taken from the *current* state's
`lastDiscardPlayer` unless self-draw, then `calculatePayments`. -/
structure RoundEndResult where
  taiResult : TaiResult
  paymentResult : PaymentResult
deriving DecidableEq, Repr

def endRoundResult (gs : GameState) (winnerIdx : Fin 4) (isSelfDraw : Bool) :
    RoundEndResult :=
  let taiResult := calculateTai (gs.players winnerIdx) isSelfDraw gs.roundWind
  let shooterIdx : Option Nat := if isSelfDraw then none else gs.lastDiscardPlayer.map Fin.val
  let paymentResult := calculatePayments winnerIdx.val shooterIdx (taiResult.basePoints : Int)
  ⟨taiResult, paymentResult⟩

-- ── View projection (server.ts, `filterStateForPlayer`) ─────────────────

/-- `ClientPlayer` from `src/types/messages.ts`. -/
structure ClientPlayer where
  id : String
  name : String
  avatar : String
  seatWind : WindDirection
  hand : List Tile
  handCount : Nat
  discards : List Tile
  melds : List Meld
  revealedBonuses : List Tile
  isCurrentTurn : Bool
  score : Int
  isReady : Bool
  isConnected : Bool
  isAI : Bool
deriving Repr

/-- `ClientGameState` from `src/types/messages.ts`. -/
structure ClientGameState where
  players : Fin 4 → ClientPlayer
  currentPlayerIndex : Fin 4
  roundWind : WindDirection
  roundNumber : Nat
  turnNumber : Nat
  lastDiscard : Option Tile
  lastDiscardPlayer : Option (Fin 4)
  tilesRemaining : Nat
  phase : GamePhase
  myIndex : Fin 4

/-- `filterStateForPlayer` from `server.ts`: reveal only the recipient's
hand, elide the others to a count; everything else is copied verbatim
(`isAI` comes from the room's `aiPlayerIndices` set). -/
def filterStateForPlayer (gs : GameState) (playerIdx : Fin 4)
    (aiPlayerIndices : Fin 4 → Bool) : ClientGameState :=
  { players := fun i =>
      let p := gs.players i
      { id := p.id
        name := p.name
        avatar := p.avatar
        seatWind := p.seatWind
        hand := if i = playerIdx then p.hand else []
        handCount := p.hand.length
        discards := p.discards
        melds := p.melds
        revealedBonuses := p.revealedBonuses
        isCurrentTurn := p.isCurrentTurn
        score := p.score
        isReady := p.isReady
        isConnected := p.isConnected
        isAI := aiPlayerIndices i }
    currentPlayerIndex := gs.currentPlayerIndex
    roundWind := gs.roundWind
    roundNumber := gs.roundNumber
    turnNumber := gs.turnNumber
    lastDiscard := gs.lastDiscard
    lastDiscardPlayer := gs.lastDiscardPlayer
    tilesRemaining := gs.tilesRemaining
    phase := gs.phase
    myIndex := playerIdx }

-- ── Tile conservation: the reachable-state invariant (C3) ───────────────

/-- All tiles a player owns: hand, discard pile, meld tiles, revealed
bonuses. -/
def playerTiles (p : Player) : List Tile :=
  p.hand ++ p.discards ++ p.melds.flatMap Meld.tiles ++ p.revealedBonuses

/-- The multiset of ids of a tile list. -/
def idMS (l : List Tile) : Multiset Nat := (l.map Tile.id : List Nat)

/-- The multiset of tile ids in circulation: wall plus every player's
tiles.  `lastDiscard` is not counted — it is the same tile that sits in
the discarder's discard pile. -/
def tileIds (s : GameState) : Multiset Nat :=
  idMS s.wall + ∑ i : Fin 4, idMS (playerTiles (s.players i))

/-- The invariant carried through the reachability induction: all 144
tile ids are in circulation exactly once, and a pending `lastDiscard` is
a tile of the recorded discarder's discard pile. -/
def Inv (s : GameState) : Prop :=
  tileIds s = Multiset.range 144
    ∧ ∀ t, s.lastDiscard = some t →
        ∃ d, s.lastDiscardPlayer = some d ∧ t ∈ (s.players d).discards

/-- One legal engine transition as invoked by the room state machine:
draws and discards are validated inside the applicator, chi is applied to
a combination computed by `canAllChi` for the current discard, and
pong/kong claims come from a non-discarder (`resolveClaimWindow` skips
the discarder). -/
inductive Step : GameState → GameState → Prop
  | draw (s : GameState) (i : Fin 4) : Step s (drawTile s i)
  | discard (s : GameState) (i : Fin 4) (tileId : Nat) : Step s (discardTile s i tileId)
  | chi (s : GameState) (i : Fin 4) (chiTiles : List Tile) (dt : Tile) (d : Fin 4)
      (hdt : s.lastDiscard = some dt) (hd : s.lastDiscardPlayer = some d)
      (hmem : chiTiles ∈ canAllChi (s.players i).hand dt.definition i d) :
      Step s (doChi s i chiTiles)
  | pong (s : GameState) (i : Fin 4)
      (hne : ∀ d, s.lastDiscardPlayer = some d → i ≠ d) : Step s (doPong s i)
  | kong (s : GameState) (i : Fin 4)
      (hne : ∀ d, s.lastDiscardPlayer = some d → i ≠ d) : Step s (doKong s i)
  | selfKong (s : GameState) (i : Fin 4) : Step s (doSelfKong s i)
  | advance (s : GameState) : Step s (advanceTurn s)

/-- Reachability by legal transitions. -/
def Reachable : GameState → GameState → Prop := Relation.ReflTransGen Step

-- ── Spec-side decomposition predicate (C1) ──────────────────────────────

/-- Spec-side definition for the win condition, from the claim's words: a
set is a triplet of one definition or a run of three consecutive values
in one suit. -/
def SpecIsSet (l : List TileDefinition) : Prop :=
  (∃ d, l = [d, d, d])
    ∨ (∃ s v, l = [.suit s v, .suit s (v + 1), .suit s (v + 2)])

/-- Spec-side definition for the win condition: the hand tiles decompose
(as a multiset of definitions) into sets plus exactly one pair. -/
def SpecDecomposes (hand : List Tile) : Prop :=
  ∃ (sets : List (List TileDefinition)) (pair : TileDefinition),
    (∀ l ∈ sets, SpecIsSet l)
      ∧ (hand.map Tile.definition).Perm (sets.flatten ++ [pair, pair])

-- ── Concrete example data ───────────────────────────────────────────────

/-- A player literal with the fields the engine reads. -/
def mkPlayer (seat : WindDirection) (hand discards : List Tile) (melds : List Meld) :
    Player :=
  { id := "p", name := "p", avatar := "a", seatWind := seat, hand := hand
    discards := discards, melds := melds, revealedBonuses := []
    isCurrentTurn := false, score := 0, isReady := true, isConnected := true }

/-- A pong meld of three copies of `d` with ids `base`, `base+1`, `base+2`. -/
def pongOf (d : TileDefinition) (base : Nat) : Meld :=
  ⟨.pong, [⟨base, d, true⟩, ⟨base + 1, d, true⟩, ⟨base + 2, d, true⟩]⟩

def exMelds3 : List Meld :=
  [pongOf (.wind .east) 100, pongOf (.wind .south) 103, pongOf (.wind .west) 106]

/-- The hand as it exists right after a draw: the sorted tiles
`b2 b3 d5 d5` with the freshly drawn `b1` appended at the end
(`drawTile` appends, it does not re-sort). -/
def exHandC1 : List Tile :=
  [⟨11, .suit .bamboo 2, true⟩, ⟨12, .suit .bamboo 3, true⟩,
   ⟨13, .suit .dot 5, true⟩, ⟨14, .suit .dot 5, true⟩, ⟨15, .suit .bamboo 1, true⟩]

def exTileB1 : Tile := ⟨15, .suit .bamboo 1, true⟩

/-- The same five tiles in sorted order, `b1` first. -/
def exHandC2 : List Tile :=
  [exTileB1, ⟨11, .suit .bamboo 2, true⟩, ⟨12, .suit .bamboo 3, true⟩,
   ⟨13, .suit .dot 5, true⟩, ⟨14, .suit .dot 5, true⟩]

def exGreen (i : Nat) : Tile := ⟨i, .dragon .green, true⟩

def exMelds4A : List Meld :=
  [pongOf (.suit .character 1) 200, pongOf (.suit .bamboo 1) 203,
   pongOf (.suit .dot 1) 206, pongOf (.suit .character 5) 209]

def exMelds4B : List Meld :=
  [pongOf (.suit .character 2) 220, pongOf (.suit .bamboo 2) 223,
   pongOf (.suit .dot 2) 226, pongOf (.suit .character 6) 229]

/-- A green dragon just discarded by player 1. -/
def exDiscard : Tile := ⟨50, .dragon .green, true⟩

/-- Claim-window state for C4: player 1 discarded a green dragon; player
2, holding one green dragon and four pong melds, can win on it. -/
def exC4State : GameState :=
  { phase := .playing
    players := fun i =>
      if i = 0 then mkPlayer .east [⟨60, .wind .north, true⟩] [] []
      else if i = 1 then mkPlayer .south [⟨61, .wind .north, true⟩] [exDiscard] []
      else if i = 2 then mkPlayer .west [exGreen 51] [] exMelds4A
      else mkPlayer .north [⟨62, .wind .north, true⟩] [] []
    wall := [⟨70, .suit .dot 9, false⟩]
    currentPlayerIndex := 1
    roundWind := .east
    roundNumber := 1
    turnNumber := 3
    lastDiscard := some exDiscard
    lastDiscardPlayer := some 1
    tilesRemaining := 1 }

def exC4Responses : Fin 4 → Option ClaimResponse :=
  fun i => if i = 2 then some ⟨.win, none⟩ else none

/-- The state `resolveClaimWindow` assigns before calling `endRound` in
the C4 scenario. -/
def exC4After : GameState := executeWinClaim exC4State exDiscard 1 2

/-- Claim-window state for C5: player 1 discarded a green dragon; both
player 0 and player 2 hold a winning hand on it and declare win. -/
def exC5State : GameState :=
  { phase := .playing
    players := fun i =>
      if i = 0 then mkPlayer .east [exGreen 51] [] exMelds4A
      else if i = 1 then mkPlayer .south [⟨61, .wind .north, true⟩] [exDiscard] []
      else if i = 2 then mkPlayer .west [exGreen 52] [] exMelds4B
      else mkPlayer .north [⟨62, .wind .north, true⟩] [] []
    wall := [⟨70, .suit .dot 9, false⟩]
    currentPlayerIndex := 1
    roundWind := .east
    roundNumber := 1
    turnNumber := 3
    lastDiscard := some exDiscard
    lastDiscardPlayer := some 1
    tilesRemaining := 1 }

def exC5Responses : Fin 4 → Option ClaimResponse :=
  fun i => if i = 0 then some ⟨.win, none⟩
    else if i = 2 then some ⟨.win, none⟩ else none

/-- Claim-window state for C6: player 0 discarded a green dragon; player
1 declares win with a hand that does not complete (two lone tiles),
player 2 declares kong holding three green dragons. -/
def exC6State : GameState :=
  { phase := .playing
    players := fun i =>
      if i = 0 then mkPlayer .east [⟨60, .wind .north, true⟩] [exDiscard] []
      else if i = 1 then
        mkPlayer .south [⟨61, .suit .character 1, true⟩, ⟨63, .suit .character 1, true⟩] [] []
      else if i = 2 then
        mkPlayer .west [exGreen 53, exGreen 54, exGreen 55, ⟨64, .suit .character 9, true⟩] [] []
      else mkPlayer .north [⟨62, .wind .north, true⟩] [] []
    wall := [⟨70, .suit .dot 9, false⟩]
    currentPlayerIndex := 0
    roundWind := .east
    roundNumber := 1
    turnNumber := 3
    lastDiscard := some exDiscard
    lastDiscardPlayer := some 0
    tilesRemaining := 1 }

def exC6Responses : Fin 4 → Option ClaimResponse :=
  fun i => if i = 1 then some ⟨.win, none⟩
    else if i = 2 then some ⟨.kong, none⟩ else none

-- ━━━━━━━━━━━━━━━━━━━━━━━━━━ THEOREMS ━━━━━━━━━━━━━━━━━━━━━━━━━━━━━━━━━━

/-- C7: for every player, self-draw flag, and round wind, the final tai
of `calculateTai` is the raw breakdown sum clamped into `[1, 10]`, and
`basePoints = 2 ^ finalTai`. -/
theorem calculateTai_clamped (player : Player) (isSelfDraw : Bool)
    (roundWind : WindDirection) :
    1 ≤ (calculateTai player isSelfDraw roundWind).tai
    ∧ (calculateTai player isSelfDraw roundWind).tai ≤ 10
    ∧ (calculateTai player isSelfDraw roundWind).tai
        = min (max (((calculateTai player isSelfDraw roundWind).breakdown.map
            TaiEntry.tai).sum) 1) 10
    ∧ (calculateTai player isSelfDraw roundWind).basePoints
        = 2 ^ (calculateTai player isSelfDraw roundWind).tai := by
  unfold calculateTai
  refine ⟨?_, ?_, rfl, rfl⟩ <;> dsimp only <;> omega

/-- C7 witness: the clamp theorem applied to a concrete winning player. -/
theorem calculateTai_clamped_witness :
    1 ≤ (calculateTai (mkPlayer .west [exGreen 51, exGreen 52] [] exMelds4A)
          false .east).tai := by
  exact (calculateTai_clamped (mkPlayer .west [exGreen 51, exGreen 52] [] exMelds4A)
    false .east).1

/-- C8: for every winner index in `0..3`, every shooter (player index or
`null`) and every positive `basePoints`, the payments of
`calculatePayments` sum to zero, touch each player exactly once, and the
winner's entry equals `winnerReceives`, which is the sum of the absolute
values of the losers' entries. -/
theorem calculatePayments_balanced (winnerIndex : Nat) (shooterIndex : Option Nat)
    (basePoints : Int) (hw : winnerIndex < 4) (hbp : 0 < basePoints) :
    (((calculatePayments winnerIndex shooterIndex basePoints).payments.map
        PaymentEntry.amount).sum = 0)
    ∧ ((calculatePayments winnerIndex shooterIndex basePoints).payments.map
        PaymentEntry.playerIndex).Perm [0, 1, 2, 3]
    ∧ (∃ e ∈ (calculatePayments winnerIndex shooterIndex basePoints).payments,
        e.playerIndex = winnerIndex
        ∧ e.amount = (calculatePayments winnerIndex shooterIndex basePoints).winnerReceives)
    ∧ (calculatePayments winnerIndex shooterIndex basePoints).winnerReceives
        = (((calculatePayments winnerIndex shooterIndex basePoints).payments.filter
            (fun e => e.playerIndex ≠ winnerIndex)).map (fun e => |e.amount|)).sum := by
  have h2 : (0 : Int) < basePoints * 2 := by linarith
  interval_cases winnerIndex <;>
    refine ⟨?_, ?_, ?_, ?_⟩ <;>
    simp only [calculatePayments, show List.range 4 = [0, 1, 2, 3] from rfl,
      List.foldl] <;>
    norm_num <;>
    first
      | decide
      | (split_ifs <;> simp [abs_of_pos, hbp, h2] <;> ring)

/-- C8 witness: winner 2, shooter 0, base points 8. -/
theorem calculatePayments_balanced_witness :
    (((calculatePayments 2 (some 0) 8).payments.map PaymentEntry.amount).sum = 0)
    ∧ ((calculatePayments 2 (some 0) 8).payments.map PaymentEntry.playerIndex).Perm
        [0, 1, 2, 3] := by
  have h := calculatePayments_balanced 2 (some 0) 8 (by decide) (by decide)
  exact ⟨h.1, h.2.1⟩

/-- C9: the client view for recipient `playerIdx` reveals exactly that
player's hand; every other player's hand is elided to `[]` with
`handCount` equal to the real hand length, and all remaining fields are
copied from the server state unchanged. -/
theorem filterStateForPlayer_projects (gs : GameState) (playerIdx : Fin 4)
    (ai : Fin 4 → Bool) :
    ((filterStateForPlayer gs playerIdx ai).players playerIdx).hand
        = (gs.players playerIdx).hand
    ∧ (∀ j, j ≠ playerIdx → ((filterStateForPlayer gs playerIdx ai).players j).hand = [])
    ∧ (∀ j, ((filterStateForPlayer gs playerIdx ai).players j).handCount
        = (gs.players j).hand.length)
    ∧ (∀ j, ((filterStateForPlayer gs playerIdx ai).players j).melds = (gs.players j).melds
        ∧ ((filterStateForPlayer gs playerIdx ai).players j).discards = (gs.players j).discards
        ∧ ((filterStateForPlayer gs playerIdx ai).players j).revealedBonuses
            = (gs.players j).revealedBonuses
        ∧ ((filterStateForPlayer gs playerIdx ai).players j).score = (gs.players j).score
        ∧ ((filterStateForPlayer gs playerIdx ai).players j).seatWind = (gs.players j).seatWind
        ∧ ((filterStateForPlayer gs playerIdx ai).players j).isCurrentTurn
            = (gs.players j).isCurrentTurn)
    ∧ (filterStateForPlayer gs playerIdx ai).tilesRemaining = gs.tilesRemaining
    ∧ (filterStateForPlayer gs playerIdx ai).currentPlayerIndex = gs.currentPlayerIndex
    ∧ (filterStateForPlayer gs playerIdx ai).roundWind = gs.roundWind
    ∧ (filterStateForPlayer gs playerIdx ai).roundNumber = gs.roundNumber
    ∧ (filterStateForPlayer gs playerIdx ai).turnNumber = gs.turnNumber
    ∧ (filterStateForPlayer gs playerIdx ai).lastDiscard = gs.lastDiscard
    ∧ (filterStateForPlayer gs playerIdx ai).lastDiscardPlayer = gs.lastDiscardPlayer
    ∧ (filterStateForPlayer gs playerIdx ai).phase = gs.phase := by
  refine ⟨by simp [filterStateForPlayer], fun j hj => by simp [filterStateForPlayer, hj],
    fun j => rfl, fun j => ⟨rfl, rfl, rfl, rfl, rfl, rfl⟩,
    rfl, rfl, rfl, rfl, rfl, rfl, rfl, rfl⟩

/-- C9 witness: projection of the concrete claim-window state for
recipient 0 hides player 2's tiles but keeps the count. -/
theorem filterStateForPlayer_projects_witness :
    ((filterStateForPlayer exC4State 0 (fun _ => false)).players 2).hand = []
    ∧ ((filterStateForPlayer exC4State 0 (fun _ => false)).players 2).handCount = 1 := by
  have h := filterStateForPlayer_projects exC4State 0 (fun _ => false)
  refine ⟨h.2.1 2 (by decide), ?_⟩
  rw [h.2.2.1 2]
  decide

/-- C10: with a non-empty wall, `drawTile` leaves every other player
untouched, changes only the hand and revealed bonuses of the drawer, and
preserves the turn bookkeeping fields. -/
theorem drawTile_frame (s : GameState) (i : Fin 4) (h : s.wall ≠ []) :
    (∀ j, j ≠ i → (drawTile s i).players j = s.players j)
    ∧ ((drawTile s i).players i).discards = (s.players i).discards
    ∧ ((drawTile s i).players i).melds = (s.players i).melds
    ∧ ((drawTile s i).players i).seatWind = (s.players i).seatWind
    ∧ ((drawTile s i).players i).score = (s.players i).score
    ∧ ((drawTile s i).players i).isCurrentTurn = (s.players i).isCurrentTurn
    ∧ (drawTile s i).currentPlayerIndex = s.currentPlayerIndex
    ∧ (drawTile s i).roundWind = s.roundWind
    ∧ (drawTile s i).roundNumber = s.roundNumber
    ∧ (drawTile s i).turnNumber = s.turnNumber
    ∧ (drawTile s i).lastDiscard = s.lastDiscard
    ∧ (drawTile s i).lastDiscardPlayer = s.lastDiscardPlayer := by
  match hw : s.wall with
  | [] => exact absurd hw h
  | drawn :: wall =>
    refine ⟨fun j hj => by simp [drawTile, hw, hj], ?_, ?_, ?_, ?_, ?_, ?_, ?_, ?_, ?_, ?_, ?_⟩
      <;> simp [drawTile, hw]

/-- C10 witness: drawing for player 0 from the concrete state keeps
player 1 and the turn fields intact. -/
theorem drawTile_frame_witness :
    (drawTile exC4State 0).players 1 = exC4State.players 1
    ∧ (drawTile exC4State 0).turnNumber = exC4State.turnNumber := by
  have h := drawTile_frame exC4State 0 (by decide)
  exact ⟨h.1 1 (by decide), h.2.2.2.2.2.2.2.2.2.1⟩

/-- C1 (code bug): `exHandC1` — the hand as it exists right after drawing
`bamboo-1` into sorted `b2 b3 d5 d5` — has the required `14 − 3·3 = 5`
tiles and decomposes into the run `b1 b2 b3` plus the pair `d5 d5`, yet
`checkWin` returns `false`: the group scan follows hand order, so the
leading group `b2` is tried only as `b2 b3 b4` and the early cut-off
fires before the run through `b1` is considered. -/
theorem checkWin_misses_decomposable_hand :
    (exHandC1.length : Int) = 14 - 3 * exMelds3.length
    ∧ SpecDecomposes exHandC1
    ∧ checkWin exHandC1 exMelds3 = false := by
  refine ⟨by decide,
    ⟨[[.suit .bamboo 1, .suit .bamboo 2, .suit .bamboo 3]], .suit .dot 5, ?_, by decide⟩,
    by decide⟩
  intro l hl
  simp only [List.mem_singleton] at hl
  subst hl
  exact Or.inr ⟨.bamboo, 1, by norm_num⟩

/-- C2 (code bug): the same five tiles in sorted order pass `checkWin`,
but removing `b1` and re-adding it through `checkWinWithTile` (which
appends it at the end) makes the check fail, so the result depends on the
position of the tile in the hand. -/
theorem checkWinWithTile_position_dependent :
    checkWin exHandC2 exMelds3 = true
    ∧ exTileB1 ∈ exHandC2
    ∧ checkWinWithTile (exHandC2.erase exTileB1) exMelds3 exTileB1 = false := by
  exact ⟨by decide, by decide, by decide⟩

/-- C4 (code bug): the win branch of `resolveClaimWindow` clears
`lastDiscardPlayer` in the state it assigns *before* calling `endRound`,
and `endRound` reads the shooter from that state — so on a win claimed
off a discard the shooter is `null` and every non-winner, the discarder
included, pays plain `basePoints` (here 8), although `calculatePayments`
itself implements shooter doubling and the spec requires the discarder to
pay `2·basePoints`. -/
theorem endRound_shooter_not_doubled :
    resolveClaimOutcome exC4State exC4Responses = .winRound 2 exC4After
    ∧ exC4After.lastDiscardPlayer = none
    ∧ (endRoundResult exC4After 2 false).taiResult.basePoints = 8
    ∧ (endRoundResult exC4After 2 false).paymentResult.payments
        = [⟨0, -8⟩, ⟨1, -8⟩, ⟨3, -8⟩, ⟨2, 24⟩] := by
  exact ⟨rfl, rfl, by decide, by decide⟩

/-- `List.find?` over `List.finRange 4 = [0,1,2,3]` returns the least
index satisfying the predicate. -/
theorem find?_finRange4_eq (p : Fin 4 → Bool) (j : Fin 4) (hj : p j = true)
    (hmin : ∀ k, k < j → p k = false) : (List.finRange 4).find? p = some j := by
  have h4 : List.finRange 4 = [0, 1, 2, 3] := rfl
  rw [h4]
  fin_cases j
  · have hj' : p 0 = true := hj
    simp [List.find?, hj']
  · have hj' : p 1 = true := hj
    have h0 : p 0 = false := hmin 0 (by decide)
    simp [List.find?, h0, hj']
  · have hj' : p 2 = true := hj
    have h0 : p 0 = false := hmin 0 (by decide)
    have h1 : p 1 = false := hmin 1 (by decide)
    simp [List.find?, h0, h1, hj']
  · have hj' : p 3 = true := hj
    have h0 : p 0 = false := hmin 0 (by decide)
    have h1 : p 1 = false := hmin 1 (by decide)
    have h2 : p 2 = false := hmin 2 (by decide)
    simp [List.find?, h0, h1, h2, hj']

/-- C5 counterexample: in the concrete window (discarder 1; players 0 and
2 both declare valid wins) the code awards the win to player 0 — the
smallest absolute index — although the declarer closest to the discarder
in turn order is player 2 (`(1 + 1) mod 4`), so the claim's award rule is
false. -/
theorem resolveClaim_win_not_by_turn_order :
    (resolveClaimOutcome exC5State exC5Responses).winWinner = some 0
    ∧ exC5State.lastDiscardPlayer = some 1
    ∧ winCandidate exC5State exDiscard 1 exC5Responses 2 = true
    ∧ (1 : Fin 4) + 1 = 2
    ∧ (resolveClaimOutcome exC5State exC5Responses).winWinner ≠ some 2 := by
  have h : (resolveClaimOutcome exC5State exC5Responses).winWinner = some 0 := rfl
  refine ⟨h, rfl, by decide, by decide, ?_⟩
  rw [h]
  decide

/-- C5 (amended): when a claim window resolves with at least one valid
win declarer, the win is awarded to the valid declarer with the smallest
absolute player index (the resolution loop scans players 0,1,2,3 skipping
the discarder), not by turn-order distance from the discarder. -/
theorem resolveClaim_win_smallest_index (gs : GameState)
    (responses : Fin 4 → Option ClaimResponse) (dt : Tile) (d : Fin 4)
    (h1 : gs.lastDiscard = some dt) (h2 : gs.lastDiscardPlayer = some d)
    (j : Fin 4) (hj : winCandidate gs dt d responses j = true)
    (hmin : ∀ k, k < j → winCandidate gs dt d responses k = false) :
    resolveClaimOutcome gs responses = .winRound j (executeWinClaim gs dt d j) := by
  unfold resolveClaimOutcome
  rw [h1, h2]
  dsimp only
  rw [find?_finRange4_eq _ j hj hmin]

/-- C5 witness: the amended award rule applied to the concrete
two-declarer window gives player 0. -/
theorem resolveClaim_win_smallest_index_witness :
    resolveClaimOutcome exC5State exC5Responses
      = .winRound 0 (executeWinClaim exC5State exDiscard 1 0) := by
  exact resolveClaim_win_smallest_index exC5State exC5Responses exDiscard 1 rfl rfl 0
    (by decide) (by decide)

/-- C6 counterexample: the concrete window has a `win` response (player
1, whose hand does not complete) and resolves to a kong for player 2 —
the kong takes effect although a win was declared, so the claim as stated
(any `win` response suppresses kong/pong/chi) is false. -/
theorem resolveClaim_kong_after_invalid_win :
    (exC6Responses 1).map ClaimResponse.action = some .win
    ∧ winClaimAllowed exC6State exDiscard 1 = false
    ∧ resolveClaimOutcome exC6State exC6Responses = .kongTaken 2 := by
  exact ⟨rfl, by decide, rfl⟩

/-- C6 (amended): in a completed claim window with at least one valid win
declaration (one passing the minimum-tai validation), no kong, pong or
chi takes effect: the resolution is a win. -/
theorem resolveClaim_valid_win_preempts (gs : GameState)
    (responses : Fin 4 → Option ClaimResponse) (dt : Tile) (d : Fin 4)
    (h1 : gs.lastDiscard = some dt) (h2 : gs.lastDiscardPlayer = some d)
    (i : Fin 4) (hi : winCandidate gs dt d responses i = true) :
    (resolveClaimOutcome gs responses).kind = .winRound := by
  unfold resolveClaimOutcome
  rw [h1, h2]
  dsimp only
  have hsome : ((List.finRange 4).find? (winCandidate gs dt d responses)).isSome := by
    rw [List.find?_isSome]
    exact ⟨i, List.mem_finRange i, hi⟩
  match hf : (List.finRange 4).find? (winCandidate gs dt d responses) with
  | some k => rfl
  | none =>
    rw [hf] at hsome
    simp at hsome

/-- C6 witness: the valid-win window of the C5 scenario resolves to a
win, not to any kong/pong/chi. -/
theorem resolveClaim_valid_win_preempts_witness :
    (resolveClaimOutcome exC5State exC5Responses).kind = .winRound := by
  exact resolveClaim_valid_win_preempts exC5State exC5Responses exDiscard 1 rfl rfl 0
    (by decide)

-- ── Tile-id bookkeeping lemmas (towards C3) ─────────────────────────────

theorem idMS_append (a b : List Tile) : idMS (a ++ b) = idMS a + idMS b := by
  simp [idMS]

theorem idMS_cons (t : Tile) (l : List Tile) : idMS (t :: l) = t.id ::ₘ idMS l := by
  simp [idMS]

theorem idMS_perm {a b : List Tile} (h : a.Perm b) : idMS a = idMS b := by
  exact Multiset.coe_eq_coe.mpr (h.map _)

theorem idMS_singleton (t : Tile) : idMS [t] = {t.id} := by
  simp [idMS]

theorem idMS_nil : idMS ([] : List Tile) = 0 := rfl

theorem idMS_sortHand (l : List Tile) : idMS (sortHand l) = idMS l :=
  idMS_perm (List.mergeSort_perm l _)

/-- The first tile found by a predicate, put back in front of the
`eraseP`-result, is a permutation of the original list. -/
theorem find?_eraseP_perm {p : Tile → Bool} :
    ∀ {l : List Tile} {a : Tile}, l.find? p = some a → (a :: l.eraseP p).Perm l := by
  intro l
  induction l with
  | nil => intro a h; simp at h
  | cons b l ih =>
    intro a h
    by_cases hb : p b
    · rw [List.find?_cons_of_pos _ hb] at h
      cases h
      rw [List.eraseP_cons_of_pos hb]
    · rw [List.find?_cons_of_neg _ hb] at h
      rw [List.eraseP_cons_of_neg hb]
      exact (List.Perm.swap b a _).trans ((ih h).cons b)

/-- Filtering away one id removes exactly the one tile carrying it, when
ids are unique. -/
theorem idMS_filter_ne_id :
    ∀ {l : List Tile} {x : Tile}, (l.map Tile.id).Nodup → x ∈ l →
      idMS (l.filter (fun t => !(t.id == x.id))) + {x.id} = idMS l := by
  intro l
  induction l with
  | nil => intro x _ hx; simp at hx
  | cons a l ih =>
    intro x hnd hx
    simp only [List.map_cons, List.nodup_cons] at hnd
    rcases List.mem_cons.mp hx with rfl | hxl
    · have hkeep : l.filter (fun t => !(t.id == x.id)) = l := by
        apply List.filter_eq_self.mpr
        intro t ht
        simp only [Bool.not_eq_eq_eq_not, Bool.not_true, beq_eq_false_iff_ne, ne_eq]
        intro he
        exact hnd.1 (he ▸ List.mem_map_of_mem Tile.id ht)
      rw [List.filter_cons_of_neg (by simp)]
      rw [hkeep, idMS_cons, add_comm, Multiset.singleton_add]
    · have hne : a.id ≠ x.id := by
        intro he
        exact hnd.1 (he ▸ List.mem_map_of_mem Tile.id hxl)
      rw [List.filter_cons_of_pos (by simp [hne])]
      rw [idMS_cons, idMS_cons, ← ih hnd.2 hxl]
      rw [Multiset.cons_add]

/-- Filtering away a duplicate-free batch of ids removes exactly those
tiles, when ids are unique. -/
theorem idMS_filter_not_mem :
    ∀ {sub l : List Tile}, (l.map Tile.id).Nodup → (sub.map Tile.id).Nodup →
      (∀ x ∈ sub, x ∈ l) →
      idMS (l.filter (fun t => !(sub.map Tile.id).contains t.id)) + idMS sub = idMS l := by
  intro sub
  induction sub with
  | nil =>
    intro l _ _ _
    simp [idMS]
  | cons x sub ih =>
    intro l hnd hsubnd hmem
    simp only [List.map_cons, List.nodup_cons] at hsubnd
    have hxl : x ∈ l := hmem x (List.mem_cons_self x sub)
    -- split the filter into "≠ x.id" then "∉ sub ids"
    have hsplit : l.filter (fun t => !((x :: sub).map Tile.id).contains t.id)
        = (l.filter (fun t => !(t.id == x.id))).filter
            (fun t => !(sub.map Tile.id).contains t.id) := by
      rw [List.filter_filter]
      apply List.filter_congr
      intro t _
      simp only [List.map_cons, List.contains_cons, Bool.not_or, Bool.and_comm]
    set l₁ := l.filter (fun t => !(t.id == x.id)) with hl₁
    have hl₁nd : (l₁.map Tile.id).Nodup :=
      hnd.sublist ((List.filter_sublist l).map Tile.id)
    have hsubmem : ∀ y ∈ sub, y ∈ l₁ := by
      intro y hy
      rw [hl₁, List.mem_filter]
      refine ⟨hmem y (List.mem_cons_of_mem x hy), ?_⟩
      simp only [Bool.not_eq_eq_eq_not, Bool.not_true, beq_eq_false_iff_ne, ne_eq]
      intro he
      exact hsubnd.1 (he ▸ List.mem_map_of_mem Tile.id hy)
    have key := ih hl₁nd hsubnd.2 hsubmem
    have key2 := idMS_filter_ne_id hnd hxl
    rw [hsplit, idMS_cons, ← Multiset.singleton_add, ← key2, ← key]
    abel

/-- `bonusChain` conserves tile ids: every popped wall tile ends up in
the revealed list or as the final tile (the final tile is itself inside
the revealed list exactly when it is a bonus). -/
theorem bonusChain_ids :
    ∀ (wall : List Tile) (current : Tile) (revealed : List Tile),
      (if isBonusDef (bonusChain current wall revealed).1.definition then 0
        else ({(bonusChain current wall revealed).1.id} : Multiset Nat))
        + idMS (bonusChain current wall revealed).2.1
        + idMS (bonusChain current wall revealed).2.2
      = {current.id} + idMS wall + idMS revealed := by
  intro wall
  induction wall using List.reverseRecOn with
  | nil =>
    intro current revealed
    rw [bonusChain.eq_def]
    by_cases hb : isBonusDef current.definition
    · simp [hb, idMS_append, idMS]
      try abel
    · simp [hb, idMS]
      try abel
  | append_singleton xs x ih =>
    intro current revealed
    rw [bonusChain.eq_def]
    by_cases hb : isBonusDef current.definition
    · rw [if_pos hb, dif_neg (by simp : ¬(xs ++ [x] = []))]
      simp only [List.dropLast_concat, List.getLast_concat]
      rw [ih]
      simp only [idMS_append, idMS_singleton]
      abel
    · simp only [if_neg hb]

theorem sum_fin4_split_one (f : Fin 4 → Multiset Nat) (j : Fin 4) :
    ∑ i : Fin 4, f i = f j + ∑ i in Finset.univ.erase j, f i :=
  (Finset.add_sum_erase _ f (Finset.mem_univ j)).symm

theorem sum_fin4_split_two (f : Fin 4 → Multiset Nat) (j d : Fin 4) (hjd : j ≠ d) :
    ∑ i : Fin 4, f i = f j + f d + ∑ i in (Finset.univ.erase j).erase d, f i := by
  rw [sum_fin4_split_one f j, add_assoc]
  congr 1
  exact (Finset.add_sum_erase _ f
    (Finset.mem_erase.mpr ⟨hjd.symm, Finset.mem_univ d⟩)).symm

theorem sum_fin4_congr_erase (f g : Fin 4 → Multiset Nat) (j : Fin 4)
    (h : ∀ i, i ≠ j → f i = g i) :
    ∑ i in Finset.univ.erase j, f i = ∑ i in Finset.univ.erase j, g i :=
  Finset.sum_congr rfl (fun i hi => h i (Finset.ne_of_mem_erase hi))

theorem sum_fin4_congr_erase_two (f g : Fin 4 → Multiset Nat) (j d : Fin 4)
    (h : ∀ i, i ≠ j → i ≠ d → f i = g i) :
    ∑ i in (Finset.univ.erase j).erase d, f i
      = ∑ i in (Finset.univ.erase j).erase d, g i := by
  apply Finset.sum_congr rfl
  intro i hi
  have h1 := Finset.ne_of_mem_erase hi
  have h2 := Finset.ne_of_mem_erase (Finset.mem_of_mem_erase hi)
  exact h i h2 h1

theorem idMS_hand_le (p : Player) : idMS p.hand ≤ idMS (playerTiles p) := by
  rw [(by unfold playerTiles; rw [idMS_append, idMS_append, idMS_append]; abel :
    idMS (playerTiles p)
      = idMS p.hand + (idMS p.discards + (idMS (p.melds.flatMap Meld.tiles)
          + idMS p.revealedBonuses)))]
  exact Multiset.le_add_right _ _

theorem idMS_discards_le (p : Player) : idMS p.discards ≤ idMS (playerTiles p) := by
  rw [(by unfold playerTiles; rw [idMS_append, idMS_append, idMS_append]; abel :
    idMS (playerTiles p)
      = idMS p.discards + (idMS p.hand + (idMS (p.melds.flatMap Meld.tiles)
          + idMS p.revealedBonuses)))]
  exact Multiset.le_add_right _ _

theorem playerTiles_le_tileIds (s : GameState) (i : Fin 4) :
    idMS (playerTiles (s.players i)) ≤ tileIds s := by
  unfold tileIds
  calc idMS (playerTiles (s.players i))
      ≤ ∑ k : Fin 4, idMS (playerTiles (s.players k)) :=
        Finset.single_le_sum (fun k _ => Multiset.zero_le _) (Finset.mem_univ i)
    _ ≤ idMS s.wall + ∑ k : Fin 4, idMS (playerTiles (s.players k)) :=
        Multiset.le_add_left _ _

theorem nodup_of_le_tileIds {s : GameState} (h : tileIds s = Multiset.range 144)
    {m : Multiset Nat} (hle : m ≤ tileIds s) : m.Nodup := by
  rw [h] at hle
  exact Multiset.nodup_of_le hle (Multiset.nodup_range 144)

theorem inv_hand_nodup {s : GameState} (h : tileIds s = Multiset.range 144)
    (i : Fin 4) : ((s.players i).hand.map Tile.id).Nodup := by
  have := nodup_of_le_tileIds h ((idMS_hand_le (s.players i)).trans
    (playerTiles_le_tileIds s i))
  exact Multiset.coe_nodup.mp this

theorem inv_discards_nodup {s : GameState} (h : tileIds s = Multiset.range 144)
    (i : Fin 4) : ((s.players i).discards.map Tile.id).Nodup := by
  have := nodup_of_le_tileIds h ((idMS_discards_le (s.players i)).trans
    (playerTiles_le_tileIds s i))
  exact Multiset.coe_nodup.mp this

theorem tileIds_eq_of_update_one (s s' : GameState) (j : Fin 4)
    (hkey : idMS s'.wall + idMS (playerTiles (s'.players j))
        = idMS s.wall + idMS (playerTiles (s.players j)))
    (hother : ∀ i, i ≠ j → playerTiles (s'.players i) = playerTiles (s.players i)) :
    tileIds s' = tileIds s := by
  unfold tileIds
  rw [sum_fin4_split_one (fun i => idMS (playerTiles (s'.players i))) j,
    sum_fin4_split_one (fun i => idMS (playerTiles (s.players i))) j,
    sum_fin4_congr_erase (fun i => idMS (playerTiles (s'.players i)))
      (fun i => idMS (playerTiles (s.players i))) j
      (fun i hi => by exact congrArg idMS (hother i hi))]
  rw [← add_assoc, ← add_assoc, hkey]

theorem tileIds_eq_of_update_two (s s' : GameState) (j d : Fin 4) (hjd : j ≠ d)
    (hkey : idMS s'.wall + idMS (playerTiles (s'.players j))
        + idMS (playerTiles (s'.players d))
        = idMS s.wall + idMS (playerTiles (s.players j))
        + idMS (playerTiles (s.players d)))
    (hother : ∀ i, i ≠ j → i ≠ d → playerTiles (s'.players i) = playerTiles (s.players i)) :
    tileIds s' = tileIds s := by
  unfold tileIds
  rw [sum_fin4_split_two (fun i => idMS (playerTiles (s'.players i))) j d hjd,
    sum_fin4_split_two (fun i => idMS (playerTiles (s.players i))) j d hjd,
    sum_fin4_congr_erase_two (fun i => idMS (playerTiles (s'.players i)))
      (fun i => idMS (playerTiles (s.players i))) j d
      (fun i h1 h2 => by exact congrArg idMS (hother i h1 h2))]
  calc idMS s'.wall + (idMS (playerTiles (s'.players j)) + idMS (playerTiles (s'.players d))
        + ∑ i in (Finset.univ.erase j).erase d, idMS (playerTiles (s.players i)))
      = idMS s'.wall + idMS (playerTiles (s'.players j)) + idMS (playerTiles (s'.players d))
        + ∑ i in (Finset.univ.erase j).erase d, idMS (playerTiles (s.players i)) := by
        abel
    _ = idMS s.wall + idMS (playerTiles (s.players j)) + idMS (playerTiles (s.players d))
        + ∑ i in (Finset.univ.erase j).erase d, idMS (playerTiles (s.players i)) := by
        rw [hkey]
    _ = idMS s.wall + (idMS (playerTiles (s.players j)) + idMS (playerTiles (s.players d))
        + ∑ i in (Finset.univ.erase j).erase d, idMS (playerTiles (s.players i))) := by
        abel

/-- `advanceTurn` moves no tiles. -/
theorem advanceTurn_inv {s : GameState} (h : Inv s) : Inv (advanceTurn s) := by
  refine ⟨?_, ?_⟩
  · rw [(rfl : tileIds (advanceTurn s) = tileIds s)]
    exact h.1
  · intro t ht
    obtain ⟨d, hd, hmem⟩ := h.2 t ht
    exact ⟨d, hd, hmem⟩

/-- `discardTile` preserves the invariant: the discarded tile moves from
the hand to the discard pile and becomes `lastDiscard`. -/
theorem discardTile_inv {s : GameState} (i : Fin 4) (tid : Nat) (h : Inv s) :
    Inv (discardTile s i tid) := by
  unfold discardTile
  dsimp only
  split
  next => exact h
  next found hf =>
    have hperm := find?_eraseP_perm hf
    have hhand : idMS ((s.players i).hand)
        = {found.id} + idMS ((s.players i).hand.eraseP (fun t => t.id == tid)) := by
      rw [← idMS_perm hperm, idMS_cons, Multiset.singleton_add]
    constructor
    · refine Eq.trans (tileIds_eq_of_update_one s _ i ?key ?other) h.1
      case key =>
        simp only [if_pos, playerTiles, idMS_append, idMS_sortHand, idMS_singleton]
        rw [hhand]
        abel
      case other =>
        intro k hk
        simp only [if_neg hk]
        rfl
    · intro t ht
      simp only [Option.some_inj] at ht
      refine ⟨i, rfl, ?_⟩
      simp only [if_pos]
      rw [← ht]
      exact List.mem_append_right _ (List.mem_singleton_self _)

/-- `drawTile` preserves the invariant: the head tile and every popped
replacement end up in the drawer's hand or revealed bonuses. -/
theorem drawTile_inv {s : GameState} (i : Fin 4) (h : Inv s) : Inv (drawTile s i) := by
  unfold drawTile
  dsimp only
  split
  next hw =>
    exact ⟨h.1, fun t ht => h.2 t ht⟩
  next drawn wall hw =>
    have hchain := bonusChain_ids wall { drawn with faceUp := true } []
    simp only [idMS_nil, add_zero] at hchain
    constructor
    · refine Eq.trans (tileIds_eq_of_update_one s _ i ?key ?other) h.1
      case key =>
        dsimp only
        rw [hw, idMS_cons, ← Multiset.singleton_add, ← hchain]
        simp only [if_pos, playerTiles, idMS_append]
        by_cases hfb :
            isBonusDef (bonusChain { drawn with faceUp := true } wall []).1.definition
        · simp only [if_pos hfb]
          abel
        · simp only [if_neg hfb, idMS_append, idMS_singleton]
          abel
      case other =>
        intro k hk
        simp only [if_neg hk]
    · intro t ht
      obtain ⟨d, hd, hmem⟩ := h.2 t ht
      refine ⟨d, hd, ?_⟩
      by_cases hdi : d = i
      · subst hdi
        simp only [if_pos]
        exact hmem
      · simp only [if_neg hdi]
        exact hmem

theorem canPong_sub {hand : List Tile} {dd : TileDefinition} {sub : List Tile}
    (h : canPong hand dd = some sub) : sub.Sublist hand := by
  unfold canPong at h
  dsimp only at h
  split at h
  · cases h
    exact ((hand.filter _).take_sublist 2).trans (List.filter_sublist hand)
  · cases h

theorem canKong_sub {hand : List Tile} {dd : TileDefinition} {sub : List Tile}
    (h : canKong hand dd = some sub) : sub.Sublist hand := by
  unfold canKong at h
  dsimp only at h
  split at h
  · cases h
    exact ((hand.filter _).take_sublist 3).trans (List.filter_sublist hand)
  · cases h

theorem chiStep_mem {st : List Tile} {res : List (List Tile)} {v : Int × Int}
    {l : List Tile} (h : l ∈ chiStep st res v) :
    l ∈ res ∨ ∃ a b, l = [a, b] ∧ a ∈ st ∧ b ∈ st ∧ a.id ≠ b.id := by
  unfold chiStep at h
  split at h
  · exact Or.inl h
  · dsimp only at h
    split at h
    next a b ha hb =>
      rcases List.mem_append.mp h with hres | hnew
      · exact Or.inl hres
      · refine Or.inr ⟨a, b, List.mem_singleton.mp hnew, List.mem_of_find?_eq_some ha,
          List.mem_of_find?_eq_some hb, ?_⟩
        have := List.find?_some hb
        simp only [Bool.and_eq_true, Option.map_some, beq_iff_eq] at this
        rcases this with ⟨-, hne⟩
        rw [ha] at hne
        have hne' : Option.map Tile.id (some a) ≠ some b.id := by simpa using hne
        exact fun he => hne' (by simp [he])
    next => exact Or.inl h

theorem foldl_chiStep_mem {st : List Tile} :
    ∀ (seqs : List (Int × Int)) (init : List (List Tile)) (l : List Tile),
      l ∈ seqs.foldl (chiStep st) init →
      l ∈ init ∨ ∃ a b, l = [a, b] ∧ a ∈ st ∧ b ∈ st ∧ a.id ≠ b.id := by
  intro seqs
  induction seqs with
  | nil => exact fun init l h => Or.inl h
  | cons v seqs ih =>
    intro init l h
    rcases ih (chiStep st init v) l h with hstep | hgood
    · exact chiStep_mem hstep
    · exact Or.inr hgood

/-- The tiles of a chi combination: two distinct tiles of the hand. -/
theorem canAllChi_mem {hand : List Tile} {dd : TileDefinition} {ci di : Fin 4}
    {l : List Tile} (h : l ∈ canAllChi hand dd ci di) :
    ∃ a b, l = [a, b] ∧ a ∈ hand ∧ b ∈ hand ∧ a.id ≠ b.id := by
  unfold canAllChi at h
  split at h
  · cases h
  · split at h
    next suit val =>
      rcases foldl_chiStep_mem _ _ _ h with hinit | ⟨a, b, hl, ha, hb, hab⟩
      · cases hinit
      · exact ⟨a, b, hl, List.mem_of_mem_filter ha, List.mem_of_mem_filter hb, hab⟩
    next => cases h

/-- A nonempty chi result means the claimer sits right after the
discarder. -/
theorem canAllChi_guard {hand : List Tile} {dd : TileDefinition} {ci di : Fin 4}
    {l : List Tile} (h : l ∈ canAllChi hand dd ci di) : di + 1 = ci := by
  unfold canAllChi at h
  split at h
  · cases h
  · next hg => exact not_not.mp hg

theorem fin4_succ_ne (d : Fin 4) : d + 1 ≠ d := by
  fin_cases d <;> decide

theorem findPromoteAux_spec {hand : List Tile} :
    ∀ (melds : List Meld) (k mi : Nat) (t : Tile),
      findPromoteAux hand k melds = some (mi, t) →
      t ∈ hand ∧ k ≤ mi ∧ mi - k < melds.length := by
  intro melds
  induction melds with
  | nil => intro k mi t h; cases h
  | cons m rest ih =>
    intro k mi t h
    unfold findPromoteAux at h
    split at h
    · split at h
      · split at h
        · cases h
          next hfind =>
            exact ⟨List.mem_of_find?_eq_some hfind, le_refl _, by simp⟩
        · obtain ⟨h1, h2, h3⟩ := ih (k + 1) mi t h
          exact ⟨h1, by omega, by simp; omega⟩
      · obtain ⟨h1, h2, h3⟩ := ih (k + 1) mi t h
        exact ⟨h1, by omega, by simp; omega⟩
    · obtain ⟨h1, h2, h3⟩ := ih (k + 1) mi t h
      exact ⟨h1, by omega, by simp; omega⟩

theorem upgradeMeldAt_ids :
    ∀ (melds : List Meld) (mi : Nat) (tile : Tile), mi < melds.length →
      idMS ((upgradeMeldAt melds mi tile).flatMap Meld.tiles)
        = idMS (melds.flatMap Meld.tiles) + {tile.id} := by
  intro melds
  induction melds with
  | nil => intro mi tile h; simp at h
  | cons m rest ih =>
    intro mi tile h
    cases mi with
    | zero =>
      unfold upgradeMeldAt
      simp only [List.flatMap_cons, idMS_append]
      rw [idMS_singleton]
      abel
    | succ mi =>
      unfold upgradeMeldAt
      simp only [List.flatMap_cons, idMS_append]
      rw [ih mi tile (by simpa using h)]
      abel

/-- The concealed-kong scan returns a whole-hand filter group. -/
theorem findConcealed_spec {hand sub : List Tile} (h : findConcealed hand = some sub) :
    ∃ t0 : Tile, sub = hand.filter (fun u => u.definition == t0.definition) := by
  unfold findConcealed at h
  rcases Option.map_eq_some'.mp h with ⟨t0, -, hs⟩
  exact ⟨t0, hs.symm⟩

/-- A list with `getLast? = some r` is its `dropLast` plus `[r]`. -/
theorem eq_dropLast_concat_of_getLast? {l : List Tile} {r : Tile}
    (h : l.getLast? = some r) : l = l.dropLast ++ [r] := by
  induction l using List.reverseRecOn with
  | nil => cases h
  | append_singleton xs x _ =>
    rw [List.getLast?_concat] at h
    cases h
    rw [List.dropLast_concat]

/-- `doPong` preserves the invariant: two matching hand tiles and the
discard move into the new meld; the discard leaves the discarder's pile. -/
theorem doPong_inv {s : GameState} (i : Fin 4)
    (hne : ∀ d, s.lastDiscardPlayer = some d → i ≠ d) (h : Inv s) :
    Inv (doPong s i) := by
  unfold doPong
  dsimp only
  split
  next => exact h
  next discard hdisc =>
    split
    next => exact h
    next pongTiles hcp =>
      obtain ⟨d, hd, hmemd⟩ := h.2 discard hdisc
      have hid : i ≠ d := hne d hd
      have hsub : pongTiles.Sublist (s.players i).hand := canPong_sub hcp
      have hhandnd := inv_hand_nodup h.1 i
      have hdiscnd := inv_discards_nodup h.1 d
      have hsubnd : (pongTiles.map Tile.id).Nodup := hhandnd.sublist (hsub.map Tile.id)
      have hrm := idMS_filter_not_mem hhandnd hsubnd (fun x hx => hsub.subset hx)
      have hrd := idMS_filter_ne_id hdiscnd hmemd
      constructor
      · refine Eq.trans (tileIds_eq_of_update_two s _ i d hid ?key ?other) h.1
        case key =>
          dsimp only
          rw [hd]
          simp only [eq_self_iff_true, if_true, if_neg (Ne.symm hid)]
          simp only [playerTiles, idMS_append, idMS_sortHand, idMS_singleton,
            List.flatMap_append, List.flatMap_cons, List.flatMap_nil, List.append_nil]
          rw [← hrm, ← hrd]
          abel
        case other =>
          intro k hk1 hk2
          rw [hd]
          simp only [if_neg hk1, if_neg (by simp [hk2] : ¬(some k = some d))]
          rfl
      · intro t ht
        simp at ht

theorem idMS_mergeSort (cmp : Tile → Tile → Bool) (l : List Tile) :
    idMS (l.mergeSort cmp) = idMS l := idMS_perm (List.mergeSort_perm l cmp)

/-- `doChi` preserves the invariant when the combination comes from
`canAllChi` for the pending discard. -/
theorem doChi_inv {s : GameState} (i : Fin 4) (chiTiles : List Tile) (dt : Tile)
    (d : Fin 4) (hdt : s.lastDiscard = some dt) (hd : s.lastDiscardPlayer = some d)
    (hmem : chiTiles ∈ canAllChi (s.players i).hand dt.definition i d) (h : Inv s) :
    Inv (doChi s i chiTiles) := by
  have hid : i ≠ d := by
    have hg := canAllChi_guard hmem
    rw [← hg]
    exact fin4_succ_ne d
  obtain ⟨a, b, hab_eq, ha, hb, hab⟩ := canAllChi_mem hmem
  obtain ⟨d', hd', hmemd⟩ := h.2 dt hdt
  rw [hd] at hd'
  injection hd' with hdd
  subst hdd
  subst hab_eq
  have hhandnd := inv_hand_nodup h.1 i
  have hdiscnd := inv_discards_nodup h.1 d
  have hsubnd : (([a, b]).map Tile.id).Nodup := by simp [hab]
  have hsubmem : ∀ x ∈ [a, b], x ∈ (s.players i).hand := by
    intro x hx
    simp only [List.mem_cons, List.mem_singleton, List.not_mem_nil, or_false] at hx
    rcases hx with rfl | rfl
    · exact ha
    · exact hb
  have hrm := idMS_filter_not_mem hhandnd hsubnd hsubmem
  have hrd := idMS_filter_ne_id hdiscnd hmemd
  unfold doChi
  rw [hdt]
  dsimp only
  constructor
  · refine Eq.trans (tileIds_eq_of_update_two s _ i d hid ?key ?other) h.1
    case key =>
      dsimp only
      rw [hd]
      simp only [eq_self_iff_true, if_true, if_neg (Ne.symm hid)]
      simp only [playerTiles, idMS_append, idMS_sortHand, idMS_mergeSort, idMS_singleton,
        List.flatMap_append, List.flatMap_cons, List.flatMap_nil, List.append_nil]
      rw [← hrm, ← hrd]
      abel
    case other =>
      intro k hk1 hk2
      rw [hd]
      simp only [if_neg hk1, if_neg (by simp [hk2] : ¬(some k = some d))]
      rfl
  · intro t ht
    simp at ht

/-- `doKong` preserves the invariant: three matching hand tiles and the
discard move into the new meld, the discard leaves the discarder's pile,
and the tail replacement (with bonus chain) lands in the claimer's hand
or revealed bonuses. -/
theorem doKong_inv {s : GameState} (i : Fin 4)
    (hne : ∀ d, s.lastDiscardPlayer = some d → i ≠ d) (h : Inv s) :
    Inv (doKong s i) := by
  unfold doKong
  dsimp only
  split
  next => exact h
  next discard hdisc =>
    split
    next => exact h
    next kongTiles hck =>
      obtain ⟨d, hd, hmemd⟩ := h.2 discard hdisc
      have hid : i ≠ d := hne d hd
      have hsub : kongTiles.Sublist (s.players i).hand := canKong_sub hck
      have hhandnd := inv_hand_nodup h.1 i
      have hdiscnd := inv_discards_nodup h.1 d
      have hsubnd : (kongTiles.map Tile.id).Nodup := hhandnd.sublist (hsub.map Tile.id)
      have hrm := idMS_filter_not_mem hhandnd hsubnd (fun x hx => hsub.subset hx)
      have hrd := idMS_filter_ne_id hdiscnd hmemd
      split
      next r hlast =>
        have hchain := bonusChain_ids s.wall.dropLast { r with faceUp := true } []
        simp only [idMS_nil, add_zero] at hchain
        have hwid : idMS s.wall = {r.id} + idMS s.wall.dropLast := by
          conv_lhs => rw [eq_dropLast_concat_of_getLast? hlast]
          rw [idMS_append, idMS_singleton]
          abel
        constructor
        · refine Eq.trans (tileIds_eq_of_update_two s _ i d hid ?key ?other) h.1
          case key =>
            dsimp only
            rw [hd]
            simp only [eq_self_iff_true, if_true, if_neg (Ne.symm hid)]
            rw [hwid, ← hchain]
            simp only [playerTiles, idMS_append, idMS_sortHand, idMS_singleton,
              List.flatMap_append, List.flatMap_cons, List.flatMap_nil, List.append_nil]
            by_cases hfb : isBonusDef
                (bonusChain { r with faceUp := true } s.wall.dropLast []).1.definition
            · simp only [if_pos hfb, idMS_sortHand]
              rw [← hrm, ← hrd]
              abel
            · simp only [if_neg hfb, idMS_append, idMS_sortHand, idMS_singleton]
              rw [← hrm, ← hrd]
              abel
          case other =>
            intro k hk1 hk2
            rw [hd]
            simp only [if_neg hk1, if_neg (by simp [hk2] : ¬(some k = some d))]
            rfl
        · intro t ht
          simp at ht
      next hlast =>
        constructor
        · refine Eq.trans (tileIds_eq_of_update_two s _ i d hid ?key ?other) h.1
          case key =>
            dsimp only
            rw [hd]
            simp only [eq_self_iff_true, if_true, if_neg (Ne.symm hid)]
            simp only [playerTiles, idMS_append, idMS_sortHand, idMS_singleton,
              List.flatMap_append, List.flatMap_cons, List.flatMap_nil, List.append_nil]
            rw [← hrm, ← hrd]
            abel
          case other =>
            intro k hk1 hk2
            rw [hd]
            simp only [if_neg hk1, if_neg (by simp [hk2] : ¬(some k = some d))]
            rfl
        · intro t ht
          simp at ht

/-- The replacement-draw tail of `doSelfKong` preserves the invariant
whenever the new hand and melds exchange exactly the same batch `X` of
tile ids. -/
theorem doSelfKongFinish_inv {s : GameState} (i : Fin 4) (h : Inv s)
    (NH : List Tile) (NM : List Meld) (X : Multiset Nat)
    (hNH : idMS NH + X = idMS (s.players i).hand)
    (hNM : idMS (NM.flatMap Meld.tiles) = idMS ((s.players i).melds.flatMap Meld.tiles) + X) :
    Inv (doSelfKongFinish s i NH NM) := by
  unfold doSelfKongFinish
  dsimp only
  have hdiscprop : ∀ (players' : Fin 4 → Player),
      (∀ k, (players' k).discards = (s.players k).discards) →
      (∀ t, s.lastDiscard = some t →
        ∃ d, s.lastDiscardPlayer = some d ∧ t ∈ (players' d).discards) := by
    intro players' hpd t ht
    obtain ⟨d, hdp, hmemd⟩ := h.2 t ht
    exact ⟨d, hdp, by rw [hpd d]; exact hmemd⟩
  split
  next r hlast =>
    have hchain := bonusChain_ids s.wall.dropLast { r with faceUp := true } []
    simp only [idMS_nil, add_zero] at hchain
    have hwid : idMS s.wall = {r.id} + idMS s.wall.dropLast := by
      conv_lhs => rw [eq_dropLast_concat_of_getLast? hlast]
      rw [idMS_append, idMS_singleton]
      abel
    constructor
    · refine Eq.trans (tileIds_eq_of_update_one s _ i ?key ?other) h.1
      case key =>
        dsimp only
        simp only [eq_self_iff_true, if_true]
        rw [hwid, ← hchain]
        simp only [playerTiles, idMS_append]
        rw [hNM, ← hNH]
        by_cases hfb : isBonusDef
            (bonusChain { r with faceUp := true } s.wall.dropLast []).1.definition
        · simp only [if_pos hfb]
          abel
        · simp only [if_neg hfb, idMS_sortHand, idMS_append, idMS_singleton]
          abel
      case other =>
        intro k hk
        simp only [if_neg hk]
    · apply hdiscprop
      intro k
      by_cases hk : k = i
      · subst hk
        simp only [if_pos]
      · simp only [if_neg hk]
  next hlast =>
    constructor
    · refine Eq.trans (tileIds_eq_of_update_one s _ i ?key ?other) h.1
      case key =>
        dsimp only
        simp only [eq_self_iff_true, if_true]
        simp only [playerTiles, idMS_append, idMS_sortHand]
        rw [hNM, ← hNH]
        abel
      case other =>
        intro k hk
        simp only [if_neg hk]
    · apply hdiscprop
      intro k
      by_cases hk : k = i
      · subst hk
        simp only [if_pos]
      · simp only [if_neg hk]

/-- `doSelfKong` preserves the invariant: the promoted tile (or the four
concealed tiles) moves from the hand into the melds, and the replacement
chain conserves the wall. -/
theorem doSelfKong_inv {s : GameState} (i : Fin 4) (h : Inv s) : Inv (doSelfKong s i) := by
  have hhandnd := inv_hand_nodup h.1 i
  cases hcsk : canSelfKong (s.players i) with
  | none =>
    unfold doSelfKong
    dsimp only
    rw [hcsk]
    exact h
  | some kongInfo =>
    cases kongInfo with
    | promote mi tile =>
      have hfp : findPromoteAux (s.players i).hand 0 (s.players i).melds
          = some (mi, tile) := by
        unfold canSelfKong at hcsk
        split at hcsk
        next mi' t' heq =>
          simp only [Option.some_inj, SelfKongInfo.promote.injEq] at hcsk
          rw [heq, hcsk.1, hcsk.2]
        next =>
          rcases Option.map_eq_some'.mp hcsk with ⟨x, -, hx⟩
          simp at hx
      obtain ⟨htile, -, hmi⟩ := findPromoteAux_spec _ 0 mi tile hfp
      have hmi' : mi < (s.players i).melds.length := by simpa using hmi
      have hrm1 := idMS_filter_ne_id hhandnd htile
      have hup := upgradeMeldAt_ids (s.players i).melds mi tile hmi'
      unfold doSelfKong
      dsimp only
      rw [hcsk]
      exact doSelfKongFinish_inv i h _ _ {tile.id} hrm1 hup
    | concealed tiles =>
      have hfc : findConcealed (s.players i).hand = some tiles := by
        unfold canSelfKong at hcsk
        split at hcsk
        next mi' t' heq => simp at hcsk
        next =>
          rcases Option.map_eq_some'.mp hcsk with ⟨x, hx1, hx2⟩
          simp only [SelfKongInfo.concealed.injEq] at hx2
          rw [hx1, hx2]
      obtain ⟨t0, hsubeq⟩ := findConcealed_spec hfc
      have hsub : tiles.Sublist (s.players i).hand := by
        rw [hsubeq]
        exact List.filter_sublist _
      have hsubnd : (tiles.map Tile.id).Nodup := hhandnd.sublist (hsub.map Tile.id)
      have hrm2 := idMS_filter_not_mem hhandnd hsubnd (fun x hx => hsub.subset hx)
      have hmelds : idMS (((s.players i).melds
            ++ [({ type := MeldType.concealedKong, tiles := tiles } : Meld)]).flatMap Meld.tiles)
          = idMS ((s.players i).melds.flatMap Meld.tiles) + idMS tiles := by
        simp only [List.flatMap_append, List.flatMap_cons, List.flatMap_nil,
          List.append_nil, idMS_append]
      unfold doSelfKong
      dsimp only
      rw [hcsk]
      exact doSelfKongFinish_inv i h _ _ (idMS tiles) hrm2 hmelds

theorem idMS_eraseIdx :
    ∀ {l : List Tile} {t : Nat} {x : Tile}, l.get? t = some x →
      idMS (l.eraseIdx t) + {x.id} = idMS l := by
  intro l
  induction l with
  | nil => intro t x h; cases h
  | cons a l ih =>
    intro t x h
    cases t with
    | zero =>
      rw [List.get?_cons_zero, Option.some_inj] at h
      subst h
      simp only [List.eraseIdx_cons_zero, idMS_cons]
      rw [add_comm, Multiset.singleton_add]
    | succ t =>
      rw [List.get?_cons_succ] at h
      simp only [List.eraseIdx_cons_succ, idMS_cons]
      rw [← ih h]
      rw [Multiset.cons_add]

/-- One bonus-replacement pass conserves tile ids across hand, bonuses
and wall. -/
theorem bonusScan_ids :
    ∀ (t : Nat) (hand bonuses wall : List Tile) (changed : Bool),
      idMS (bonusScan t hand bonuses wall changed).1
        + idMS (bonusScan t hand bonuses wall changed).2.1
        + idMS (bonusScan t hand bonuses wall changed).2.2.1
      = idMS hand + idMS bonuses + idMS wall := by
  intro t
  induction t with
  | zero => intro hand bonuses wall changed; rfl
  | succ t ih =>
    intro hand bonuses wall changed
    unfold bonusScan
    cases hg : hand.get? t with
    | none =>
      simp only [hg]
      exact ih hand bonuses wall changed
    | some tile =>
      simp only [hg]
      by_cases hb : isBonusDef tile.definition
      · simp only [hb, if_true]
        cases hl : wall.getLast? with
        | some repl =>
          simp only [hl]
          rw [ih]
          have hw : idMS wall = idMS wall.dropLast + {repl.id} := by
            conv_lhs => rw [eq_dropLast_concat_of_getLast? hl]
            rw [idMS_append, idMS_singleton]
          rw [hw, idMS_append, idMS_append, idMS_singleton, idMS_singleton,
            ← idMS_eraseIdx hg]
          abel
        | none =>
          simp only [hl]
          rw [ih]
          rw [idMS_append, idMS_singleton, ← idMS_eraseIdx hg]
          abel
      · simp only [hb, if_false]
        exact ih hand bonuses wall changed

/-- The bonus-replacement loop conserves tile ids. -/
theorem bonusReplaceLoop_ids :
    ∀ (fuel : Nat) (hand bonuses wall : List Tile),
      idMS (bonusReplaceLoop fuel hand bonuses wall).1
        + idMS (bonusReplaceLoop fuel hand bonuses wall).2.1
        + idMS (bonusReplaceLoop fuel hand bonuses wall).2.2
      = idMS hand + idMS bonuses + idMS wall := by
  intro fuel
  induction fuel with
  | zero => intro hand bonuses wall; rfl
  | succ fuel ih =>
    intro hand bonuses wall
    unfold bonusReplaceLoop
    dsimp only
    split
    · rw [ih]
      exact bonusScan_ids hand.length hand bonuses wall false
    · exact bonusScan_ids hand.length hand bonuses wall false

/-- The fresh deal puts exactly the ids `0 … 143` in circulation. -/
theorem createGameState_tileIds (defs : List TileDefinition) (hlen : defs.length = 144) :
    tileIds (createGameState defs) = Multiset.range 144 := by
  have hinit : ∀ p : Nat, idMS (initialHand defs p)
      = (((List.range 13).map (fun t => 13 * p + t) : List Nat) : Multiset Nat) := by
    intro p
    unfold initialHand idMS mkDealTile
    rw [List.map_map]
    rfl
  have hwall : idMS (initialWall defs)
      = (((List.range 91).map (fun k => 53 + k) : List Nat) : Multiset Nat) := by
    unfold initialWall idMS mkDealTile
    rw [hlen, List.map_map]
    rfl
  unfold createGameState tileIds
  dsimp only
  rw [Fin.sum_univ_four]
  simp only [show ((0 : Fin 4)).val = 0 from rfl, show ((1 : Fin 4)).val = 1 from rfl,
    show ((2 : Fin 4)).val = 2 from rfl, show ((3 : Fin 4)).val = 3 from rfl]
  simp only [playerTiles, idMS_append, idMS_sortHand, idMS_nil, List.flatMap_nil,
    add_zero, zero_add]
  set W0 := initialWall defs with hW0
  set H0 := initialHand defs 0 ++ [mkDealTile defs 52 true] with hH0
  set H1 := initialHand defs 1 with hH1
  set H2 := initialHand defs 2 with hH2
  set H3 := initialHand defs 3 with hH3
  set R0 := bonusReplaceLoop (W0.length + 1) H0 [] W0 with hR0
  set R1 := bonusReplaceLoop (R0.2.2.length + 1) H1 [] R0.2.2 with hR1
  set R2 := bonusReplaceLoop (R1.2.2.length + 1) H2 [] R1.2.2 with hR2
  set R3 := bonusReplaceLoop (R2.2.2.length + 1) H3 [] R2.2.2 with hR3
  have e0 : idMS R0.1 + idMS R0.2.1 + idMS R0.2.2 = idMS H0 + idMS W0 := by
    have := bonusReplaceLoop_ids (W0.length + 1) H0 [] W0
    rw [idMS_nil, add_zero] at this
    exact this
  have e1 : idMS R1.1 + idMS R1.2.1 + idMS R1.2.2 = idMS H1 + idMS R0.2.2 := by
    have := bonusReplaceLoop_ids (R0.2.2.length + 1) H1 [] R0.2.2
    rw [idMS_nil, add_zero] at this
    exact this
  have e2 : idMS R2.1 + idMS R2.2.1 + idMS R2.2.2 = idMS H2 + idMS R1.2.2 := by
    have := bonusReplaceLoop_ids (R1.2.2.length + 1) H2 [] R1.2.2
    rw [idMS_nil, add_zero] at this
    exact this
  have e3 : idMS R3.1 + idMS R3.2.1 + idMS R3.2.2 = idMS H3 + idMS R2.2.2 := by
    have := bonusReplaceLoop_ids (R2.2.2.length + 1) H3 [] R2.2.2
    rw [idMS_nil, add_zero] at this
    exact this
  have etotal : idMS R3.2.2 + (idMS R0.1 + idMS R0.2.1) + (idMS R1.1 + idMS R1.2.1)
      + (idMS R2.1 + idMS R2.2.1) + (idMS R3.1 + idMS R3.2.1)
      = idMS H0 + idMS H1 + idMS H2 + idMS H3 + idMS W0 := by
    calc idMS R3.2.2 + (idMS R0.1 + idMS R0.2.1) + (idMS R1.1 + idMS R1.2.1)
        + (idMS R2.1 + idMS R2.2.1) + (idMS R3.1 + idMS R3.2.1)
        = (idMS R3.1 + idMS R3.2.1 + idMS R3.2.2) + ((idMS R0.1 + idMS R0.2.1)
            + (idMS R1.1 + idMS R1.2.1) + (idMS R2.1 + idMS R2.2.1)) := by abel
      _ = (idMS H3 + idMS R2.2.2) + ((idMS R0.1 + idMS R0.2.1)
            + (idMS R1.1 + idMS R1.2.1) + (idMS R2.1 + idMS R2.2.1)) := by rw [e3]
      _ = (idMS R2.1 + idMS R2.2.1 + idMS R2.2.2) + (idMS H3 + ((idMS R0.1 + idMS R0.2.1)
            + (idMS R1.1 + idMS R1.2.1))) := by abel
      _ = (idMS H2 + idMS R1.2.2) + (idMS H3 + ((idMS R0.1 + idMS R0.2.1)
            + (idMS R1.1 + idMS R1.2.1))) := by rw [e2]
      _ = (idMS R1.1 + idMS R1.2.1 + idMS R1.2.2) + (idMS H2 + idMS H3
            + (idMS R0.1 + idMS R0.2.1)) := by abel
      _ = (idMS H1 + idMS R0.2.2) + (idMS H2 + idMS H3 + (idMS R0.1 + idMS R0.2.1)) := by
            rw [e1]
      _ = (idMS R0.1 + idMS R0.2.1 + idMS R0.2.2) + (idMS H1 + idMS H2 + idMS H3) := by
            abel
      _ = (idMS H0 + idMS W0) + (idMS H1 + idMS H2 + idMS H3) := by rw [e0]
      _ = idMS H0 + idMS H1 + idMS H2 + idMS H3 + idMS W0 := by abel
  refine Eq.trans (?_ : _ = idMS H0 + idMS H1 + idMS H2 + idMS H3 + idMS W0) ?_
  · rw [← etotal]
    abel
  · rw [hH0, idMS_append, idMS_singleton, hinit 0, hinit 1, hinit 2, hinit 3, hwall]
    rw [show (mkDealTile defs 52 true).id = 52 from rfl]
    decide

/-- Every legal transition preserves the invariant. -/
theorem step_preserves_inv {s s' : GameState} (hs : Step s s') (h : Inv s) : Inv s' := by
  cases hs with
  | draw i => exact drawTile_inv i h
  | discard i tileId => exact discardTile_inv i tileId h
  | chi i chiTiles dt d hdt hd hmem => exact doChi_inv i chiTiles dt d hdt hd hmem h
  | pong i hne => exact doPong_inv i hne h
  | kong i hne => exact doKong_inv i hne h
  | selfKong i => exact doSelfKong_inv i h
  | advance => exact advanceTurn_inv h

theorem reachable_inv {s0 s : GameState} (h0 : Inv s0) (hr : Reachable s0 s) : Inv s := by
  induction hr with
  | refl => exact h0
  | tail _ hstep ih => exact step_preserves_inv hstep ih

/-- C3: from a freshly dealt state, every state reachable by legal
transitions has exactly the 144 distinct tile ids in circulation across
the wall, hands, discard piles, meld tiles and revealed bonuses; a
pending `lastDiscard` is the same tile that sits in the recorded
discarder's discard pile. -/
theorem tile_conservation (defs : List TileDefinition)
    (hdefs : defs.Perm generateTileSet) (s : GameState)
    (hs : Reachable (createGameState defs) s) :
    Multiset.card (tileIds s) = 144 ∧ (tileIds s).Nodup
    ∧ (∀ t, s.lastDiscard = some t →
        ∃ d, s.lastDiscardPlayer = some d ∧ t ∈ (s.players d).discards) := by
  have hlen : defs.length = 144 := by
    rw [hdefs.length_eq]
    rfl
  have h0 : Inv (createGameState defs) := by
    constructor
    · exact createGameState_tileIds defs hlen
    · intro t ht
      cases ht
  have hinv := reachable_inv h0 hs
  refine ⟨?_, ?_, hinv.2⟩
  · rw [hinv.1, Multiset.card_range]
  · rw [hinv.1]
    exact Multiset.nodup_range 144

/-- C3 witness: the freshly dealt state itself (with the canonical tile
set) satisfies the conservation property. -/
theorem tile_conservation_witness :
    Multiset.card (tileIds (createGameState generateTileSet)) = 144
    ∧ (tileIds (createGameState generateTileSet)).Nodup := by
  have h := tile_conservation generateTileSet (List.Perm.refl _)
    (createGameState generateTileSet) Relation.ReflTransGen.refl
  exact ⟨h.1, h.2.1⟩

end BrocsMahjong
